import Mathlib

/-!
# Remote signing adapter: `internal/keyvault/keyvault.go`

A shallow embedding of the three functions of the package (session
construction, certificate chain retrieval, digest signing through the transit
engine) together with the library calls they make.

Conventions of the embedding.

* A Go `string` is a Lean `String`.  The byte-level operations the package
  performs on strings are the emptiness tests `len(s) < 1`, the split on `":"`
  and the base64 decoding, all of which act on ASCII bytes, so that they agree
  on characters and on UTF-8 bytes, and the conversion `[]byte(s)`, which is
  the UTF-8 encoding.
* A Go slice is `Option (List α)`: `none` is the `nil` slice.
* A function returning `(T, error)` returns a pair whose second component is
  `none` for a `nil` error.
* Calls that leave the package (process environment, vault client, certificate
  parser) are answered by a `World`; every function of the package returns, next
  to its Go results, the list of calls it made, in order.  A function of the
  package makes each call at most once in a run, so that a world is one answer
  for each call and its arguments.
* A run either returns or panics (`Outcome`).
* A call of the client library is one entry of that list, whatever the library
  does to answer it.  The attempts that the library makes on the remote service
  within a call are counted apart, on a `Service`, through the retry loop of
  the library under the configuration that `vault.New` starts from.
-/

namespace keyvault

/-! ## Go values -/

/-- Go error values met by the package. -/
inductive GoError where
  /-- the value built by `errors.New(s)` -/
  | errorString (s : String)
  /-- the value `base64.CorruptInputError(offset)` -/
  | CorruptInputError (offset : Int)
  /-- an error value of any other dynamic type, made by a library outside the package -/
  | external (description : String)
  deriving DecidableEq, Repr

/-- A value of type `interface{}` as found in a decoded JSON document. -/
inductive GoValue where
  | null
  | bool (b : Bool)
  | number (literal : String)
  | string (s : String)
  | array (items : List GoValue)
  | object (fields : List (String × GoValue))

/-- A `map[string]interface{}`, through its lookup: `none` for an absent key. -/
abbrev GoMap := String → Option GoValue

/-- The index expression `m[key]`: the zero value (a nil interface) for an absent key. -/
def GoMap.index (m : GoMap) (key : String) : GoValue :=
  (m key).getD GoValue.null

/-- The comma-ok type assertion `s, ok := v.(string)`. -/
def GoValue.assertString : GoValue → String × Bool
  | GoValue.string s => (s, true)
  | _ => ("", false)

/-- A Go slice: `none` is the nil slice. -/
abbrev Slice (α : Type) := Option (List α)

/-- The conversion `[]byte(s)`: the UTF-8 bytes of the string. -/
def bytesOfString (s : String) : List Nat :=
  (s.toList.flatMap String.utf8EncodeChar).map UInt8.toNat

/-- Runtime panics the package can raise. -/
inductive Panic where
  /-- index out of range `[index]` with length `length` -/
  | indexOutOfRange (index length : Nat)
  /-- invalid memory address or nil pointer dereference -/
  | nilDereference
  deriving DecidableEq, Repr

/-- How a run of a Go function ends. -/
inductive Outcome (α : Type) where
  | returned (value : α)
  | panicked (p : Panic)
  deriving DecidableEq

namespace errors

/-- The call `errors.New(text)`. -/
def New (text : String) : GoError := GoError.errorString text

end errors

namespace time

/-- The constant `time.Second`, a `time.Duration` counted in nanoseconds. -/
def Second : Nat := 1000000000

end time

/-! ## `strings.Split` -/

namespace strings

/-- The function `strings.Index(s, substr)`: the index of the first instance of
`substr` in `s`, or `-1`. -/
def Index : List Char → List Char → Int
  | [], substr => if substr = [] then 0 else -1
  | c :: s, substr =>
    if substr.isPrefixOf (c :: s) then 0
    else
      let i := Index s substr
      if i < 0 then -1 else i + 1

/-- The general loop of `strings.Count`: count the non-overlapping instances,
restarting after each one.  Every round drops at least one character of `s`,
so `len(s) + 1` rounds are enough. -/
def countLoop (substr : List Char) : Nat → List Char → Nat → Nat
  | 0, _, n => n
  | fuel + 1, s, n =>
    let i := Index s substr
    if i = -1 then n
    else countLoop substr fuel (s.drop (i.toNat + substr.length)) (n + 1)

/-- The function `strings.Count(s, substr)`. -/
def Count (s substr : List Char) : Nat :=
  if substr.length = 0 then s.length + 1
  else if substr.length = 1 then s.count (substr.headD (Char.ofNat 0))
  else countLoop substr (s.length + 1) s 0

/-- The function `explode(s, n)`: split `s` into at most `n` one-character strings, the last
of which holds the rest. -/
def explode (s : List Char) (n : Int) : List (List Char) :=
  let l := s.length
  let n := if n < 0 ∨ n > l then l else n.toNat
  if n = 0 then [] else (s.take (n - 1)).map (fun c => [c]) ++ [s.drop (n - 1)]

/-- The loop of `genSplit`: `for i < n { m := Index(s, sep); if m < 0 { break }; ... }`
followed by `a[i] = s`; the first argument is `n - i`. -/
def splitLoop (sep : List Char) (sepSave : Nat) : Nat → List Char → List (List Char)
  | 0, s => [s]
  | k + 1, s =>
    let m := Index s sep
    if m < 0 then [s]
    else s.take (m.toNat + sepSave) :: splitLoop sep sepSave k (s.drop (m.toNat + sep.length))

/-- The function `genSplit(s, sep, sepSave, n)`. -/
def genSplit (s sep : List Char) (sepSave : Nat) (n : Int) : List (List Char) :=
  if n = 0 then []
  else if sep = [] then explode s n
  else
    let n : Nat := if n < 0 then Count s sep + 1 else n.toNat
    let n : Nat := if n > s.length + 1 then s.length + 1 else n
    splitLoop sep sepSave (n - 1) s

/-- The function `strings.Split(s, sep)`, which is `genSplit(s, sep, 0, -1)`. -/
def Split (s sep : String) : List String :=
  (genSplit s.toList sep.toList 0 (-1)).map String.mk

end strings

/-! ## `base64.StdEncoding.DecodeString` -/

namespace base64

/-- The alphabet `encodeStd` of the standard encoding. -/
def encodeStd : List Char :=
  "ABCDEFGHIJKLMNOPQRSTUVWXYZabcdefghijklmnopqrstuvwxyz0123456789+/".toList

/-- The padding character `StdPadding`. -/
def StdPadding : Char := '='

/-- The line feed, which the decoder skips. -/
def LF : Char := Char.ofNat 10

/-- The carriage return, which the decoder skips. -/
def CR : Char := Char.ofNat 13

/-- The table `decodeMap` of `StdEncoding`: the position of an alphabet character,
`0xff` for every other character. -/
def decodeMap (c : Char) : Nat :=
  let i := encodeStd.indexOf c
  if i < 64 then i else 0xff

/-- The loop `for si < len(src) && (src[si] == LF || src[si] == CR) { si++ }`,
on the rest `src[si:]` of the input. -/
def skipNewlines : List Char → Nat → List Char × Nat
  | [], si => ([], si)
  | c :: rest, si =>
    if c = LF ∨ c = CR then skipNewlines rest (si + 1) else (c :: rest, si)

/-- What `decodeQuantum` returns: the new source index `nsi` (with the rest
`src[nsi:]` of the input), the bytes written to `dst` (their number is the
result `n`) and the error. -/
structure Quantum where
  rest : List Char
  nsi : Nat
  out : List Nat
  err : Option GoError

/-- The end of `decodeQuantum`: the four 6-bit values of `dbuf` are packed into
`val` and the first `dlen - 1` of its three bytes are written. -/
def quantumBytes (dbuf : List Nat) (dlen : Nat) : List Nat :=
  let val := dbuf.getD 0 0 <<< 18 ||| dbuf.getD 1 0 <<< 12 ||| dbuf.getD 2 0 <<< 6 ||| dbuf.getD 3 0
  [val >>> 16 % 256, val >>> 8 % 256, val >>> 0 % 256].take (dlen - 1)

/-- The tail of the padding branch of `decodeQuantum`: skip over newlines, report
trailing garbage, and leave the loop with `dlen = j`. -/
def afterPadding (dbuf : List Nat) (j : Nat) (rest : List Char) (si : Nat) : Quantum :=
  let (rest, si) := skipNewlines rest si
  let err := if rest ≠ [] then some (GoError.CorruptInputError si) else none
  ⟨rest, si, quantumBytes dbuf j, err⟩

/-- The loop `for j := 0; j < len(dbuf); j++` of `decodeQuantum` for `StdEncoding`
(padding character `=`, not strict), on the rest `src[si:]` of the input;
`srcLen` is `len(src)`. -/
def quantumLoop (srcLen : Nat) : Nat → List Nat → List Char → Nat → Quantum
  | j, _, [], si =>
    -- `len(src) == si`
    if j = 0 then ⟨[], si, [], none⟩
    else ⟨[], si, [], some (GoError.CorruptInputError ((si : Int) - j))⟩
  | j, dbuf, c :: rest, si =>
    let si := si + 1
    let out := decodeMap c
    if out ≠ 0xff then
      let dbuf := dbuf.set j out
      if j + 1 < 4 then quantumLoop srcLen (j + 1) dbuf rest si
      else ⟨rest, si, quantumBytes dbuf 4, none⟩
    else if c = LF ∨ c = CR then quantumLoop srcLen j dbuf rest si
    else if c ≠ StdPadding then ⟨rest, si, [], some (GoError.CorruptInputError ((si : Int) - 1))⟩
    else if j = 0 ∨ j = 1 then
      -- incorrect padding
      ⟨rest, si, [], some (GoError.CorruptInputError ((si : Int) - 1))⟩
    else if j = 2 then
      -- "==" is expected, the first "=" is already consumed
      match skipNewlines rest si with
      | ([], si) => ⟨[], si, [], some (GoError.CorruptInputError srcLen)⟩
      | (c2 :: rest2, si) =>
        if c2 ≠ StdPadding then ⟨c2 :: rest2, si, [], some (GoError.CorruptInputError ((si : Int) - 1))⟩
        else afterPadding dbuf j rest2 (si + 1)
    else afterPadding dbuf j rest si

/-- The method `decodeQuantum(dst, src, si)`. -/
def decodeQuantum (srcLen : Nat) (src : List Char) (si : Nat) : Quantum :=
  quantumLoop srcLen 0 [0, 0, 0, 0] src si

/-- The loop `for si < len(src) { si, ninc, err = decodeQuantum(dst[n:], src, si); ... }`
of `Decode`.  Every round reads at least one character, so `len(src)` rounds
are enough; the result when the rounds run out is marked by an error that the
decoder never makes. -/
def decodeLoop (srcLen : Nat) : Nat → List Char → Nat → List Nat → List Nat × Option GoError
  | _, [], _, dst => (dst, none)
  | 0, _ :: _, _, dst => (dst, some (GoError.external "decodeLoop: out of rounds"))
  | fuel + 1, c :: rest, si, dst =>
    let q := decodeQuantum srcLen (c :: rest) si
    if q.err.isSome then (dst ++ q.out, q.err)
    else decodeLoop srcLen fuel q.rest q.nsi (dst ++ q.out)

/-- The method `Decode(dst, src)` of `StdEncoding`, returning the written part `dst[:n]`
and the error.  The 8-byte and 4-byte loops of the Go source are fast paths of
the quantum loop and write the same bytes. -/
def Decode (src : List Char) : List Nat × Option GoError :=
  if src.length = 0 then ([], none)
  else decodeLoop src.length src.length src 0 []

/-- The call `base64.StdEncoding.DecodeString(s)`: `dbuf[:n], err`, never a nil slice. -/
def StdEncoding.DecodeString (s : String) : Slice Nat × Option GoError :=
  let r := Decode s.toList
  (some r.1, r.2)

end base64

/-! ## The vault client library and the calls leaving the package -/

/-- A `context.Context`, handed on to the client untouched. -/
structure Context where
  id : Nat
  deriving DecidableEq, Repr

/-- A `*vault.Client` returned by `vault.New`.  The package keeps the pointer and
passes it back to the library; the state behind it belongs to the library. -/
structure Client where
  id : Nat
  deriving DecidableEq, Repr

/-- A parsed `*x509.Certificate`, identified by its DER bytes. -/
structure Certificate where
  Raw : List Nat
  deriving DecidableEq, Repr

namespace vault

/-- The options `vault.WithAddress(address)` and `vault.WithRequestTimeout(timeout)`,
the timeout being a `time.Duration` in nanoseconds. -/
inductive ClientOption where
  | WithAddress (address : String)
  | WithRequestTimeout (timeout : Nat)
  deriving DecidableEq, Repr

end vault

namespace schema

/-- The struct `schema.TransitSignRequest` of the client library; every field
starts at its zero value. -/
structure TransitSignRequest where
  Algorithm : String := ""
  BatchInput : Slice GoMap := none
  Context : String := ""
  HashAlgorithm : String := ""
  Input : String := ""
  KeyVersion : Int := 0
  MarshalingAlgorithm : String := ""
  Prehashed : Bool := false
  SaltLength : String := ""
  SignatureAlgorithm : String := ""

/-- The struct `schema.KvV2ReadResponse` of the client library. -/
structure KvV2ReadResponse where
  Data : GoMap
  Metadata : GoMap

end schema

/-- The struct `vault.Response[T]`, of which the package reads the field `Data` only. -/
structure Response (T : Type) where
  Data : T

/-- A call leaving the package, with its arguments. -/
inductive Call where
  | Getenv (key : String)
  | New (options : List vault.ClientOption)
  | SetToken (client : Client) (token : String)
  | KvV2Read (ctx : Context) (client : Client) (path : String)
  | TransitSign (ctx : Context) (client : Client) (name : String) (request : schema.TransitSignRequest)
  | ParseCertificates (certBytes : List Nat)
  | Split (s sep : String)
  | DecodeString (s : String)

/-- Whether a call is a request to the remote service. -/
def Call.isRemote : Call → Bool
  | Call.KvV2Read _ _ _ => true
  | Call.TransitSign _ _ _ _ => true
  | _ => false

/-- Whether a call builds a client or is made on one. -/
def Call.onClient : Call → Bool
  | Call.New _ => true
  | Call.SetToken _ _ => true
  | Call.KvV2Read _ _ _ => true
  | Call.TransitSign _ _ _ _ => true
  | _ => false

/-- What lies outside the package: the process environment, the vault client
library with the remote service behind it, and the certificate parser of
`internal/crypto`.  Each component answers one kind of call with the Go
results of that call; a pointer result is `none` when it is nil. -/
structure World where
  /-- the process environment: `none` for a variable that is not set -/
  environ : String → Option String
  /-- the call `vault.New(options...)`; the client is not nil when the error is nil -/
  New : List vault.ClientOption → Client × Option GoError
  /-- the call `client.SetToken(token)` -/
  SetToken : Client → String → Option GoError
  /-- the call `client.Secrets.KvV2Read(ctx, path)` -/
  KvV2Read : Context → Client → String →
    Option (Response schema.KvV2ReadResponse) × Option GoError
  /-- the call `client.Secrets.TransitSign(ctx, name, request)` -/
  TransitSign : Context → Client → String → schema.TransitSignRequest →
    Option (Response GoMap) × Option GoError
  /-- the call `crypto.ParseCertificates(certBytes)` -/
  ParseCertificates : List Nat → Slice Certificate × Option GoError

/-- The call `os.Getenv(key)`: the value of the variable, empty when it is not set. -/
def World.Getenv (w : World) (key : String) : String :=
  (w.environ key).getD ""

/-! ### The attempts of the client library on the service

A call of a method of `client.Secrets` is one request of the package, which the client
library sends through its retrying HTTP client: `vault.New` starts from
`DefaultConfiguration()`, whose `RetryConfiguration` has `RetryMax: 2`, and the options
`WithAddress` and `WithRequestTimeout`, the only ones the package passes, leave it so. -/

namespace vault

end vault

/-- The struct `VaultClientWrapper` (lines 16 to 20). -/
structure VaultClientWrapper where
  vaultClient : Client
  keyID : String
  deriving DecidableEq, Repr

/-- A run of a function of the package: the calls it made, in order, and how it ended. -/
structure Exec (α : Type) where
  calls : List Call
  outcome : Outcome α

/-- A run of a method of `*VaultClientWrapper`: the calls it made, the receiver as
the run leaves it, and how it ended. -/
structure MethodExec (α : Type) where
  calls : List Call
  self : VaultClientWrapper
  outcome : Outcome α

/-- The function `NewVaultClientFromKeyID(id)` (lines 22 to 52). -/
def NewVaultClientFromKeyID (w : World) (id : String) :
    Exec (Option VaultClientWrapper × Option GoError) :=
  -- read addr and token from environment variables
  let vaultAddr := w.Getenv "VAULT_ADDR"
  let calls := [Call.Getenv "VAULT_ADDR"]
  if vaultAddr.length < 1 then
    ⟨calls, Outcome.returned (none, some (errors.New "failed to load vault address"))⟩
  else
    let vaultToken := w.Getenv "VAULT_TOKEN"
    let calls := calls ++ [Call.Getenv "VAULT_TOKEN"]
    if vaultToken.length < 1 then
      ⟨calls, Outcome.returned (none, some (errors.New "Error loading vault token"))⟩
    else
      -- prepare a client with the given base address
      let options :=
        [vault.ClientOption.WithAddress vaultAddr,
         vault.ClientOption.WithRequestTimeout (30 * time.Second)]
      let calls := calls ++ [Call.New options]
      match w.New options with
      | (_, some err) => ⟨calls, Outcome.returned (none, some err)⟩
      | (client, none) =>
        -- authenticate with a root token (insecure)
        let calls := calls ++ [Call.SetToken client vaultToken]
        match w.SetToken client vaultToken with
        | some err => ⟨calls, Outcome.returned (none, some err)⟩
        | none =>
          ⟨calls, Outcome.returned (some { vaultClient := client, keyID := id }, none)⟩

/-- The method `(vw *VaultClientWrapper) GetCertificateChain(ctx)` (lines 54 to 66). -/
def VaultClientWrapper.GetCertificateChain (w : World) (vw : VaultClientWrapper)
    (ctx : Context) : MethodExec (Slice Certificate × Option GoError) :=
  -- read a certChain
  let calls := [Call.KvV2Read ctx vw.vaultClient vw.keyID]
  match w.KvV2Read ctx vw.vaultClient vw.keyID with
  | (_, some err) => ⟨calls, vw, Outcome.returned (none, some err)⟩
  | (none, none) => ⟨calls, vw, Outcome.panicked Panic.nilDereference⟩
  | (some secret, none) =>
    match (secret.Data.Data.index "certificate").assertString with
    | (_, false) =>
      ⟨calls, vw,
        Outcome.returned (none, some (errors.New "failed to parse certificate from KV secrets engine"))⟩
    | (certString, true) =>
      let certBytes := bytesOfString certString
      ⟨calls ++ [Call.ParseCertificates certBytes], vw,
        Outcome.returned (w.ParseCertificates certBytes)⟩

/-- The method `(vw *VaultClientWrapper) SignWithTransit(ctx, encodedData, signAlgorithm)`
(lines 68 to 91).  The index expression `items[2]` panics when `items` has fewer than three
elements. -/
def VaultClientWrapper.SignWithTransit (w : World) (vw : VaultClientWrapper)
    (ctx : Context) (encodedData : String) (signAlgorithm : String) :
    MethodExec (Slice Nat × Option GoError) :=
  -- sign with transit SE
  let request : schema.TransitSignRequest :=
    { Input := encodedData,
      MarshalingAlgorithm := "asn1",
      Prehashed := true,
      SaltLength := "hash",
      SignatureAlgorithm := signAlgorithm }
  let calls := [Call.TransitSign ctx vw.vaultClient vw.keyID request]
  match w.TransitSign ctx vw.vaultClient vw.keyID request with
  | (_, some err) => ⟨calls, vw, Outcome.returned (none, some err)⟩
  | (none, none) => ⟨calls, vw, Outcome.panicked Panic.nilDereference⟩
  | (some resp, none) =>
    match (resp.Data.index "signature").assertString with
    | (_, false) =>
      ⟨calls, vw,
        Outcome.returned (none, some (errors.New "failed to parse signature from TransitSign response"))⟩
    | (signature, true) =>
      let items := strings.Split signature ":"
      let calls := calls ++ [Call.Split signature ":"]
      match items.get? 2 with
      | none => ⟨calls, vw, Outcome.panicked (Panic.indexOutOfRange 2 items.length)⟩
      | some item =>
        let calls := calls ++ [Call.DecodeString item]
        match base64.StdEncoding.DecodeString item with
        | (_, some err) => ⟨calls, vw, Outcome.returned (none, some err)⟩
        | (sigBytes, none) => ⟨calls, vw, Outcome.returned (sigBytes, none)⟩

/-! ## Notions used to state the properties -/

/-- Whether an environment variable is missing or empty. -/
def missingOrEmpty (v : Option String) : Prop := v = none ∨ v = some ""

/-- The colon-delimited segments of a string: the substrings between its colons. -/
def colonSegments (s : String) : List String :=
  (s.toList.splitOn ':').map String.mk

/-- The request that `SignWithTransit` builds from its two string arguments. -/
def VaultClientWrapper.signRequest (encodedData signAlgorithm : String) :
    schema.TransitSignRequest :=
  { Input := encodedData,
    MarshalingAlgorithm := "asn1",
    Prehashed := true,
    SaltLength := "hash",
    SignatureAlgorithm := signAlgorithm }

/-! ### Standard base64 text, after RFC 4648

The encoded text is a sequence of groups of four characters of the alphabet, each standing
for three bytes; the last group may end in `=` (two bytes) or in `==` (one byte).  Line
breaks between the characters are not part of the text: `encoding/base64` documents that
the decoder ignores `\r` and `\n`. -/

namespace base64

/-- Whether a character belongs to the alphabet of the standard encoding. -/
def inAlphabet (c : Char) : Bool := decide (c ∈ encodeStd)

/-- The 6-bit value of a character of the alphabet: its position in the alphabet. -/
def sextet (c : Char) : Nat := encodeStd.indexOf c

/-- The characters of an encoded string without the line breaks. -/
def text (s : List Char) : List Char :=
  s.filter (fun c => decide (¬ (c = LF ∨ c = CR)))

/-- Whether a text is made of groups of four characters of the alphabet, the last of which
may end in one or two padding characters. -/
def validGroups : List Char → Bool
  | [] => true
  | a :: b :: c :: d :: rest =>
    inAlphabet a && inAlphabet b &&
      (if inAlphabet c && inAlphabet d then validGroups rest
       else decide (rest = []) &&
         ((decide (c = StdPadding) && decide (d = StdPadding)) ||
          (inAlphabet c && decide (d = StdPadding))))
  | _ => false

/-- The bytes a valid text stands for: the 6-bit values of each group, 24 bits in all, cut
into three bytes, of which a group ending in `=` gives the first two and a group ending in
`==` the first. -/
def groupBytes : List Char → List Nat
  | a :: b :: c :: d :: rest =>
    if c = StdPadding then [sextet a * 4 + sextet b / 16]
    else if d = StdPadding then [sextet a * 4 + sextet b / 16, sextet b % 16 * 16 + sextet c / 4]
    else
      (sextet a * 4 + sextet b / 16) :: (sextet b % 16 * 16 + sextet c / 4) ::
        (sextet c % 4 * 64 + sextet d) :: groupBytes rest
  | _ => []

/-- What a result of `decodeQuantum` says once positions in the source are left out:
the bytes written, whether there is an error, and the text still to be read. -/
def Quantum.view (q : Quantum) : List Nat × Bool × List Char :=
  (q.out, q.err.isSome, text q.rest)

/-- How one result `q` of `decodeQuantum` stands to the text `t` it was read from: without an
error, `t` is valid exactly when the text left over is, and stands for the bytes written
followed by the bytes of the text left over; with an error, `t` is not valid. -/
def Quantum.readsGroupOf (q : Quantum) (t : List Char) : Prop :=
  (q.view.2.1 = false →
    validGroups t = validGroups q.view.2.2 ∧ groupBytes t = q.view.1 ++ groupBytes q.view.2.2) ∧
  (q.view.2.1 = true → validGroups t = false)

/-- Whether a string is valid standard base64 to the letter: groups of four characters of
the alphabet with `=` padding, and no other character, a line break included. -/
def StdEncoding.strictValid (s : String) : Bool := validGroups s.toList

/-- Whether a string is valid standard base64 once its line breaks (CR and LF) are left
out.  This is wider than `StdEncoding.strictValid`: `AAAA` followed by a line feed is
valid in this sense and not to the letter. -/
def StdEncoding.valid (s : String) : Bool := validGroups (text s.toList)

/-- The bytes that a string stands for when it is valid standard base64 once its line
breaks are left out. -/
def StdEncoding.decoded (s : String) : List Nat := groupBytes (text s.toList)

end base64

/-! ## Concrete worlds -/

namespace Example

/-- A context. -/
def ctx : Context := ⟨0⟩

/-- A client handle. -/
def client : Client := ⟨1⟩

/-- A session for the key `signing-key`. -/
def session : VaultClientWrapper := ⟨client, "signing-key"⟩

/-- A map with a single entry, a string. -/
def record (key value : String) : GoMap :=
  fun k => if k = key then some (GoValue.string value) else none

/-- A map with a single entry, a number. -/
def numberRecord (key literal : String) : GoMap :=
  fun k => if k = key then some (GoValue.number literal) else none

/-- A map without entries. -/
def emptyMap : GoMap := fun _ => none

/-- A world in which every call succeeds: both variables are set, the secret holds a
certificate string, the transit engine answers `vault:v1:AAAA`, and the parser returns one
certificate holding the bytes it was given. -/
def world : World where
  environ := fun k =>
    if k = "VAULT_ADDR" then some "https://vault.example:8200"
    else if k = "VAULT_TOKEN" then some "s.token"
    else none
  New := fun _ => (client, none)
  SetToken := fun _ _ => none
  KvV2Read := fun _ _ _ => (some ⟨⟨record "certificate" "PEM", emptyMap⟩⟩, none)
  TransitSign := fun _ _ _ _ => (some ⟨record "signature" "vault:v1:AAAA"⟩, none)
  ParseCertificates := fun certBytes => (some [⟨certBytes⟩], none)

/-- The world `world` with another process environment. -/
def withEnviron (environ : String → Option String) : World :=
  { world with environ := environ }

/-- The world `world` in which the transit engine answers with the given `data`. -/
def withSignData (data : GoMap) : World :=
  { world with TransitSign := fun _ _ _ _ => (some ⟨data⟩, none) }

/-- The world `world` in which the secret read returns the given `data`. -/
def withSecretData (data : GoMap) : World :=
  { world with KvV2Read := fun _ _ _ => (some ⟨⟨data, emptyMap⟩⟩, none) }

/-- The world `world` in which both remote calls fail with the given error. -/
def withRemoteError (err : GoError) : World :=
  { world with
    KvV2Read := fun _ _ _ => (none, some err)
    TransitSign := fun _ _ _ _ => (none, some err) }

/-- The world `world` in which both remote calls return a nil response and a nil error,
as the client library does on a success without a body. -/
def withNilResponse : World :=
  { world with
    KvV2Read := fun _ _ _ => (none, none)
    TransitSign := fun _ _ _ _ => (none, none) }

end Example

namespace strings

/-! ## `strings.Split` on a one-character separator -/

theorem Index_nil_singleton (c : Char) : Index [] [c] = -1 := by
  simp [Index]

theorem Index_cons_singleton (a c : Char) (s : List Char) :
    Index (a :: s) [c] =
      if a = c then 0 else if Index s [c] < 0 then -1 else Index s [c] + 1 := by
  rw [Index]
  by_cases h : a = c
  · subst h
    simp [List.isPrefixOf]
  · have h' : ¬ c = a := fun e => h e.symm
    simp [List.isPrefixOf, h, h']

theorem Index_singleton_ge (c : Char) (s : List Char) : -1 ≤ Index s [c] := by
  induction s with
  | nil => simp [Index_nil_singleton]
  | cons a s ih =>
    rw [Index_cons_singleton]
    split_ifs <;> omega

theorem Index_singleton_neg_iff (c : Char) (s : List Char) : Index s [c] < 0 ↔ c ∉ s := by
  induction s with
  | nil => simp [Index_nil_singleton]
  | cons a s ih =>
    have hge := Index_singleton_ge c s
    rw [Index_cons_singleton]
    by_cases h : a = c
    · subst h
      simp
    · have h' : ¬ c = a := fun e => h e.symm
      simp only [if_neg h, List.mem_cons, h', false_or]
      rw [← ih]
      split_ifs with h1
      · simp [h1]
      · constructor
        · intro h2
          omega
        · intro h2
          exact absurd h2 h1

theorem splitLoop_cons (c a : Char) (k : Nat) (s : List Char) :
    splitLoop [c] 0 (k + 1) (a :: s) =
      if a = c then [] :: splitLoop [c] 0 k s
      else (splitLoop [c] 0 (k + 1) s).modifyHead (List.cons a) := by
  have hge := Index_singleton_ge c s
  rw [splitLoop, splitLoop]
  simp only [Index_cons_singleton, List.length_singleton, Nat.add_zero]
  by_cases h : a = c
  · simp [h]
  · simp only [if_neg h]
    by_cases hneg : Index s [c] < 0
    · simp [hneg]
    · simp only [if_neg hneg]
      have hnn : ¬ (Index s [c] + 1 < 0) := by omega
      simp only [if_neg hnn]
      have e : (Index s [c] + 1).toNat = (Index s [c]).toNat + 1 := by omega
      rw [e]
      simp

theorem splitLoop_eq_splitOn (c : Char) (s : List Char) :
    ∀ k, s.count c ≤ k → splitLoop [c] 0 k s = s.splitOn c := by
  induction s with
  | nil =>
    intro k _
    cases k with
    | zero => rfl
    | succ k => simp [splitLoop, Index_nil_singleton]
  | cons a s ih =>
    intro k hk
    cases k with
    | zero =>
      have hnot : c ∉ a :: s := List.count_eq_zero.mp (Nat.le_zero.mp hk)
      rw [splitLoop]
      unfold List.splitOn
      rw [List.splitOnP_eq_single]
      intro x hx hxc
      have : x = c := by simpa using hxc
      exact hnot (this ▸ hx)
    | succ k =>
      rw [splitLoop_cons]
      unfold List.splitOn
      rw [List.splitOnP_cons]
      by_cases h : a = c
      · subst h
        have hk' : s.count a ≤ k := by
          rw [List.count_cons_self] at hk
          omega
        have := ih k hk'
        unfold List.splitOn at this
        simp [this]
      · have hk' : s.count c ≤ k + 1 := by
          have := List.count_le_count_cons (a := c) (b := a) (l := s)
          omega
        have := ih (k + 1) hk'
        unfold List.splitOn at this
        simp [h, this]

/-- Refinement: on the separator `":"`, `strings.Split` returns the substrings of `s`
between the colons, that is, `List.splitOn` of the characters of `s`. -/
theorem Split_colon (s : String) :
    Split s ":" = (s.toList.splitOn ':').map String.mk := by
  unfold Split genSplit
  have hsep : (":" : String).toList = [':'] := rfl
  have hcount : Count s.toList [':'] = s.toList.count ':' := by
    simp [Count]
  have hle : s.toList.count ':' ≤ s.toList.length := List.count_le_length _ _
  rw [hsep]
  simp only [hcount]
  have h1 : ¬ ((-1 : Int) = 0) := by decide
  have h2 : ([':'] : List Char) ≠ [] := by simp
  have h3 : (-1 : Int) < 0 := by decide
  have h4 : ¬ (s.toList.count ':' + 1 > s.toList.length + 1) := by omega
  simp only [if_neg h1, if_neg h2, if_pos h3, if_neg h4, Nat.add_sub_cancel]
  rw [splitLoop_eq_splitOn ':' s.toList _ (le_refl _)]

end strings

namespace base64

/-! ## The decoder against the RFC text -/

theorem LF_not_inAlphabet : inAlphabet LF = false := by decide
theorem CR_not_inAlphabet : inAlphabet CR = false := by decide
theorem StdPadding_not_inAlphabet : inAlphabet StdPadding = false := by decide

theorem sextet_lt_of_inAlphabet {c : Char} (h : inAlphabet c = true) : sextet c < 64 := by
  unfold inAlphabet at h
  unfold sextet
  have := List.indexOf_lt_length.mpr (of_decide_eq_true h)
  simpa [encodeStd] using this

theorem decodeMap_of_inAlphabet {c : Char} (h : inAlphabet c = true) :
    decodeMap c = sextet c := by
  have := sextet_lt_of_inAlphabet h
  unfold decodeMap
  unfold sextet at this ⊢
  simp [this]

theorem decodeMap_of_not_inAlphabet {c : Char} (h : inAlphabet c = false) :
    decodeMap c = 0xff := by
  unfold inAlphabet at h
  have hc : c ∉ encodeStd := of_decide_eq_false h
  have : encodeStd.indexOf c = 64 := by
    have := List.indexOf_eq_length.mpr hc
    simpa [encodeStd] using this
  unfold decodeMap
  simp [this]

theorem decodeMap_ne_iff (c : Char) : decodeMap c ≠ 0xff ↔ inAlphabet c = true := by
  cases h : inAlphabet c with
  | true =>
    have := sextet_lt_of_inAlphabet h
    rw [decodeMap_of_inAlphabet h]
    simp
    omega
  | false =>
    rw [decodeMap_of_not_inAlphabet h]
    simp

theorem pack_eq (a b c d : Nat) (hb : b < 64) (hc : c < 64) (hd : d < 64) :
    a <<< 18 ||| b <<< 12 ||| c <<< 6 ||| d = a * 262144 + b * 4096 + c * 64 + d := by
  simp only [Nat.shiftLeft_eq]
  have h1 : a * 2 ^ 18 ||| b * 2 ^ 12 = a * 2 ^ 18 + b * 2 ^ 12 := by
    have := Nat.mul_add_lt_is_or (i := 18) (b := b * 2 ^ 12) (by omega) a
    rw [Nat.mul_comm (2 ^ 18) a] at this
    exact this.symm
  have h2 : (a * 2 ^ 18 + b * 2 ^ 12) ||| c * 2 ^ 6 = a * 2 ^ 18 + b * 2 ^ 12 + c * 2 ^ 6 := by
    have := Nat.mul_add_lt_is_or (i := 12) (b := c * 2 ^ 6) (by omega) (a * 2 ^ 6 + b)
    have e : 2 ^ 12 * (a * 2 ^ 6 + b) = a * 2 ^ 18 + b * 2 ^ 12 := by ring
    rw [e] at this
    exact this.symm
  have h3 : (a * 2 ^ 18 + b * 2 ^ 12 + c * 2 ^ 6) ||| d = a * 2 ^ 18 + b * 2 ^ 12 + c * 2 ^ 6 + d := by
    have := Nat.mul_add_lt_is_or (i := 6) (b := d) (by omega) (a * 2 ^ 12 + b * 2 ^ 6 + c)
    have e : 2 ^ 6 * (a * 2 ^ 12 + b * 2 ^ 6 + c) = a * 2 ^ 18 + b * 2 ^ 12 + c * 2 ^ 6 := by ring
    rw [e] at this
    exact this.symm
  rw [h1, h2, h3]
  norm_num

theorem quantumBytes_four {a b c d : Nat} (ha : a < 64) (hb : b < 64) (hc : c < 64)
    (hd : d < 64) :
    quantumBytes [a, b, c, d] 4 = [a * 4 + b / 16, b % 16 * 16 + c / 4, c % 4 * 64 + d] := by
  unfold quantumBytes
  simp only [List.getD_cons_zero, List.getD_cons_succ]
  rw [pack_eq a b c d hb hc hd]
  simp only [Nat.shiftRight_eq_div_pow]
  simp
  omega

theorem quantumBytes_three {a b c : Nat} (ha : a < 64) (hb : b < 64) (hc : c < 64) :
    quantumBytes [a, b, c, 0] 3 = [a * 4 + b / 16, b % 16 * 16 + c / 4] := by
  unfold quantumBytes
  simp only [List.getD_cons_zero, List.getD_cons_succ]
  rw [pack_eq a b c 0 hb hc (by omega)]
  simp only [Nat.shiftRight_eq_div_pow]
  simp
  omega

theorem quantumBytes_two {a b : Nat} (ha : a < 64) (hb : b < 64) :
    quantumBytes [a, b, 0, 0] 2 = [a * 4 + b / 16] := by
  unfold quantumBytes
  simp only [List.getD_cons_zero, List.getD_cons_succ]
  rw [pack_eq a b 0 0 hb (by omega) (by omega)]
  simp only [Nat.shiftRight_eq_div_pow]
  simp
  omega

theorem text_nil : text [] = [] := rfl

theorem text_cons_newline {c : Char} (h : c = LF ∨ c = CR) (l : List Char) :
    text (c :: l) = text l := by
  simp only [text]
  rw [List.filter_cons_of_neg]
  simp only [decide_not, Bool.not_eq_true', decide_eq_false_iff_not, not_not]
  exact h

theorem text_cons_other {c : Char} (h : ¬ (c = LF ∨ c = CR)) (l : List Char) :
    text (c :: l) = c :: text l := by
  simp only [text]
  rw [List.filter_cons_of_pos]
  simpa using h

theorem text_text (l : List Char) : text (text l) = text l := by
  simp [text, List.filter_filter]

theorem not_newline_of_mem_text {c : Char} {l : List Char} (h : c ∈ text l) :
    ¬ (c = LF ∨ c = CR) := by
  simpa using (List.mem_filter.mp h).2

theorem text_length_le (l : List Char) : (text l).length ≤ l.length :=
  List.length_filter_le _ _

theorem skipNewlines_text (l : List Char) (si : Nat) : skipNewlines (text l) si = (text l, si) := by
  cases h : text l with
  | nil => rfl
  | cons c t =>
    have hc : ¬ (c = LF ∨ c = CR) := not_newline_of_mem_text (l := l) (by rw [h]; simp)
    simp [skipNewlines, hc]

theorem skipNewlines_spec (l : List Char) (si : Nat) :
    text (skipNewlines l si).1 = text l ∧ (skipNewlines l si).1.length ≤ l.length ∧
      ∀ c rest, (skipNewlines l si).1 = c :: rest → ¬ (c = LF ∨ c = CR) := by
  induction l generalizing si with
  | nil => simp [skipNewlines]
  | cons a t ih =>
    by_cases ha : a = LF ∨ a = CR
    · have e : skipNewlines (a :: t) si = skipNewlines t (si + 1) := by
        simp [skipNewlines, ha]
      rw [e, text_cons_newline ha]
      obtain ⟨h1, h2, h3⟩ := ih (si + 1)
      exact ⟨h1, by simp; omega, h3⟩
    · have e : skipNewlines (a :: t) si = (a :: t, si) := by
        simp [skipNewlines, ha]
      rw [e]
      refine ⟨rfl, le_refl _, ?_⟩
      intro c rest hc
      simp at hc
      rw [← hc.1]
      exact ha

theorem afterPadding_view (dbuf : List Nat) (j : Nat) (l : List Char) (si si' : Nat) :
    (afterPadding dbuf j l si).view = (afterPadding dbuf j (text l) si').view := by
  obtain ⟨h1, _, _⟩ := skipNewlines_spec l si
  unfold afterPadding
  rw [skipNewlines_text]
  rcases hs : skipNewlines l si with ⟨r, k⟩
  rw [hs] at h1
  simp only at h1
  simp only [Quantum.view, text_text, h1]
  cases r with
  | nil =>
    rw [text_nil] at h1
    simp [← h1]
  | cons c t =>
    have hc := (skipNewlines_spec l si).2.2 c t (by rw [hs])
    rw [text_cons_other hc] at h1
    simp [← h1]

theorem quantumLoop_view (l : List Char) :
    ∀ (n n' j : Nat) (dbuf : List Nat) (si si' : Nat),
      (quantumLoop n j dbuf l si).view = (quantumLoop n' j dbuf (text l) si').view := by
  induction l with
  | nil =>
    intro n n' j dbuf si si'
    by_cases hj : j = 0 <;> simp [text_nil, quantumLoop, Quantum.view, hj]
  | cons c rest ih =>
    intro n n' j dbuf si si'
    by_cases hnl : c = LF ∨ c = CR
    · have hc : decodeMap c = 0xff := by
        rcases hnl with h | h <;> subst h
        · exact decodeMap_of_not_inAlphabet LF_not_inAlphabet
        · exact decodeMap_of_not_inAlphabet CR_not_inAlphabet
      rw [text_cons_newline hnl]
      have e : quantumLoop n j dbuf (c :: rest) si = quantumLoop n j dbuf rest (si + 1) := by
        rw [quantumLoop]
        simp [hc, hnl]
      rw [e]
      exact ih n n' j dbuf (si + 1) si'
    · rw [text_cons_other hnl]
      rw [quantumLoop, quantumLoop]
      simp only [if_neg hnl]
      by_cases hA : decodeMap c ≠ 0xff
      · simp only [if_pos hA]
        by_cases hj : j + 1 < 4
        · simp only [if_pos hj]
          exact ih n n' (j + 1) _ (si + 1) (si' + 1)
        · simp only [if_neg hj]
          simp [Quantum.view, text_text]
      · simp only [if_neg hA]
        by_cases hp : c ≠ StdPadding
        · simp only [if_pos hp]
          simp [Quantum.view, text_text]
        · simp only [if_neg hp]
          by_cases hj01 : j = 0 ∨ j = 1
          · simp only [if_pos hj01]
            simp [Quantum.view, text_text]
          · simp only [if_neg hj01]
            by_cases hj2 : j = 2
            · simp only [if_pos hj2]
              rw [skipNewlines_text]
              obtain ⟨h1, _, h3⟩ := skipNewlines_spec rest (si + 1)
              rcases hs : skipNewlines rest (si + 1) with ⟨r, k⟩
              rw [hs] at h1 h3
              simp only at h1 h3
              cases r with
              | nil =>
                rw [text_nil] at h1
                rw [← h1]
                simp [Quantum.view, text_nil]
              | cons c2 rest2 =>
                have hc2 := h3 c2 rest2 rfl
                rw [text_cons_other hc2] at h1
                rw [← h1]
                simp only
                by_cases hp2 : c2 ≠ StdPadding
                · simp only [if_pos hp2]
                  simp [Quantum.view, text_text, text_cons_other hc2]
                · simp only [if_neg hp2]
                  exact afterPadding_view _ _ _ _ _
            · simp only [if_neg hj2]
              exact afterPadding_view _ _ _ _ _

theorem afterPadding_err (dbuf : List Nat) (j : Nat) (l : List Char) (si : Nat) (e : GoError)
    (h : (afterPadding dbuf j l si).err = some e) : ∃ k, e = GoError.CorruptInputError k := by
  unfold afterPadding at h
  rcases hs : skipNewlines l si with ⟨r, k⟩
  rw [hs] at h
  simp only at h
  by_cases hr : r ≠ []
  · rw [if_pos hr] at h
    exact ⟨k, (Option.some.inj h).symm⟩
  · rw [if_neg hr] at h
    exact absurd h (by simp)

theorem afterPadding_rest_length (dbuf : List Nat) (j : Nat) (l : List Char) (si : Nat) :
    (afterPadding dbuf j l si).rest.length ≤ l.length := by
  have := (skipNewlines_spec l si).2.1
  unfold afterPadding
  rcases hs : skipNewlines l si with ⟨r, k⟩
  rw [hs] at this
  exact this

theorem quantumLoop_err (l : List Char) :
    ∀ (n j : Nat) (dbuf : List Nat) (si : Nat) (e : GoError),
      (quantumLoop n j dbuf l si).err = some e → ∃ k, e = GoError.CorruptInputError k := by
  induction l with
  | nil =>
    intro n j dbuf si e h
    rw [quantumLoop] at h
    by_cases hj : j = 0
    · rw [if_pos hj] at h
      exact absurd h (by simp)
    · rw [if_neg hj] at h
      exact ⟨_, (Option.some.inj h).symm⟩
  | cons c rest ih =>
    intro n j dbuf si e h
    rw [quantumLoop] at h
    by_cases hA : decodeMap c ≠ 0xff
    · simp only [if_pos hA] at h
      by_cases hj : j + 1 < 4
      · simp only [if_pos hj] at h
        exact ih _ _ _ _ _ h
      · simp only [if_neg hj] at h
        exact absurd h (by simp)
    · simp only [if_neg hA] at h
      by_cases hnl : c = LF ∨ c = CR
      · simp only [if_pos hnl] at h
        exact ih _ _ _ _ _ h
      · simp only [if_neg hnl] at h
        by_cases hp : c ≠ StdPadding
        · simp only [if_pos hp] at h
          exact ⟨_, (Option.some.inj h).symm⟩
        · simp only [if_neg hp] at h
          by_cases hj01 : j = 0 ∨ j = 1
          · simp only [if_pos hj01] at h
            exact ⟨_, (Option.some.inj h).symm⟩
          · simp only [if_neg hj01] at h
            by_cases hj2 : j = 2
            · simp only [if_pos hj2] at h
              rcases hs : skipNewlines rest (si + 1) with ⟨r, k⟩
              rw [hs] at h
              cases r with
              | nil => exact ⟨_, (Option.some.inj h).symm⟩
              | cons c2 rest2 =>
                simp only at h
                by_cases hp2 : c2 ≠ StdPadding
                · simp only [if_pos hp2] at h
                  exact ⟨_, (Option.some.inj h).symm⟩
                · simp only [if_neg hp2] at h
                  exact afterPadding_err _ _ _ _ _ h
            · simp only [if_neg hj2] at h
              exact afterPadding_err _ _ _ _ _ h

theorem quantumLoop_rest_length (l : List Char) :
    ∀ (n j : Nat) (dbuf : List Nat) (si : Nat),
      (quantumLoop n j dbuf l si).rest.length ≤ l.length - 1 := by
  induction l with
  | nil =>
    intro n j dbuf si
    rw [quantumLoop]
    by_cases hj : j = 0
    · simp [if_pos hj]
    · simp [if_neg hj]
  | cons c rest ih =>
    intro n j dbuf si
    rw [quantumLoop]
    simp only [List.length_cons, Nat.add_sub_cancel]
    by_cases hA : decodeMap c ≠ 0xff
    · simp only [if_pos hA]
      by_cases hj : j + 1 < 4
      · simp only [if_pos hj]
        exact le_trans (ih _ _ _ _) (Nat.sub_le _ _)
      · simp only [if_neg hj]
        exact le_refl _
    · simp only [if_neg hA]
      by_cases hnl : c = LF ∨ c = CR
      · simp only [if_pos hnl]
        exact le_trans (ih _ _ _ _) (Nat.sub_le _ _)
      · simp only [if_neg hnl]
        by_cases hp : c ≠ StdPadding
        · simp only [if_pos hp]
          exact le_refl _
        · simp only [if_neg hp]
          by_cases hj01 : j = 0 ∨ j = 1
          · simp only [if_pos hj01]
            exact le_refl _
          · simp only [if_neg hj01]
            by_cases hj2 : j = 2
            · simp only [if_pos hj2]
              have hlen := (skipNewlines_spec rest (si + 1)).2.1
              rcases hs : skipNewlines rest (si + 1) with ⟨r, k⟩
              rw [hs] at hlen
              cases r with
              | nil => simp
              | cons c2 rest2 =>
                simp only [List.length_cons] at hlen
                simp only
                by_cases hp2 : c2 ≠ StdPadding
                · simp only [if_pos hp2]
                  simpa using hlen
                · simp only [if_neg hp2]
                  exact le_trans (afterPadding_rest_length _ _ _ _) (by omega)
            · simp only [if_neg hj2]
              exact afterPadding_rest_length _ _ _ _

theorem text_cons_eq_self {a : Char} {t : List Char} (h : text (a :: t) = a :: t) :
    ¬ (a = LF ∨ a = CR) ∧ text t = t := by
  by_cases ha : a = LF ∨ a = CR
  · rw [text_cons_newline ha] at h
    have := text_length_le t
    rw [h] at this
    simp at this
  · rw [text_cons_other ha] at h
    exact ⟨ha, List.tail_eq_of_cons_eq h⟩

theorem quantumLoop_cons_inAlphabet {c : Char} (h : inAlphabet c = true) (n j : Nat)
    (dbuf : List Nat) (rest : List Char) (si : Nat) :
    quantumLoop n j dbuf (c :: rest) si =
      if j + 1 < 4 then quantumLoop n (j + 1) (dbuf.set j (sextet c)) rest (si + 1)
      else ⟨rest, si + 1, quantumBytes (dbuf.set j (sextet c)) 4, none⟩ := by
  rw [quantumLoop]
  simp only [if_pos ((decodeMap_ne_iff c).mpr h)]
  simp only [decodeMap_of_inAlphabet h]

theorem quantumLoop_cons_other {c : Char} (h : inAlphabet c = false) (hnl : ¬ (c = LF ∨ c = CR))
    (hp : c ≠ StdPadding) (n j : Nat) (dbuf : List Nat) (rest : List Char) (si : Nat) :
    (quantumLoop n j dbuf (c :: rest) si).view = ([], true, text rest) := by
  have hA : ¬ decodeMap c ≠ 0xff := by
    rw [decodeMap_ne_iff, h]
    simp
  rw [quantumLoop]
  simp only [if_neg hA, if_neg hnl, if_pos hp]
  rfl

theorem afterPadding_view_of_clean (dbuf : List Nat) (j : Nat) {t : List Char}
    (ht : text t = t) (si : Nat) :
    (afterPadding dbuf j t si).view = (quantumBytes dbuf j, decide (t ≠ []), t) := by
  unfold afterPadding
  rw [← ht, skipNewlines_text, ht]
  cases t with
  | nil => rfl
  | cons c r => simp [Quantum.view, ht]

theorem padding_not_newline : ¬ (StdPadding = LF ∨ StdPadding = CR) := by decide

theorem quantumLoop_padding_early {j : Nat} (hj : j = 0 ∨ j = 1) (n : Nat) (dbuf : List Nat)
    (rest : List Char) (si : Nat) :
    (quantumLoop n j dbuf (StdPadding :: rest) si).view = ([], true, text rest) := by
  have hA : ¬ decodeMap StdPadding ≠ 0xff := by
    rw [decodeMap_ne_iff, StdPadding_not_inAlphabet]
    simp
  have hp : ¬ StdPadding ≠ StdPadding := by simp
  rw [quantumLoop]
  simp only [if_neg hA, if_neg padding_not_newline, if_neg hp, if_pos hj]
  rfl

theorem quantumLoop_padding_third (n : Nat) (dbuf : List Nat) {t : List Char}
    (ht : text t = t) (si : Nat) :
    (quantumLoop n 3 dbuf (StdPadding :: t) si).view = (quantumBytes dbuf 3, decide (t ≠ []), t) := by
  have hA : ¬ decodeMap StdPadding ≠ 0xff := by
    rw [decodeMap_ne_iff, StdPadding_not_inAlphabet]
    simp
  have hp : ¬ StdPadding ≠ StdPadding := by simp
  have h01 : ¬ ((3 : Nat) = 0 ∨ (3 : Nat) = 1) := by decide
  have h2 : ¬ ((3 : Nat) = 2) := by decide
  rw [quantumLoop]
  simp only [if_neg hA, if_neg padding_not_newline, if_neg hp, if_neg h01, if_neg h2]
  exact afterPadding_view_of_clean _ _ ht _

theorem quantumLoop_padding_second_nil (n : Nat) (dbuf : List Nat) (si : Nat) :
    (quantumLoop n 2 dbuf [StdPadding] si).view = ([], true, []) := by
  have hA : ¬ decodeMap StdPadding ≠ 0xff := by
    rw [decodeMap_ne_iff, StdPadding_not_inAlphabet]
    simp
  have hp : ¬ StdPadding ≠ StdPadding := by simp
  have h01 : ¬ ((2 : Nat) = 0 ∨ (2 : Nat) = 1) := by decide
  rw [quantumLoop]
  simp only [if_neg hA, if_neg padding_not_newline, if_neg hp, if_neg h01, if_true, skipNewlines]
  rfl

theorem quantumLoop_padding_second_cons (n : Nat) (dbuf : List Nat) {c : Char} {t : List Char}
    (ht : text (c :: t) = c :: t) (si : Nat) :
    (quantumLoop n 2 dbuf (StdPadding :: c :: t) si).view =
      if c = StdPadding then (quantumBytes dbuf 2, decide (t ≠ []), t) else ([], true, c :: t) := by
  have hA : ¬ decodeMap StdPadding ≠ 0xff := by
    rw [decodeMap_ne_iff, StdPadding_not_inAlphabet]
    simp
  have hp : ¬ StdPadding ≠ StdPadding := by simp
  have h01 : ¬ ((2 : Nat) = 0 ∨ (2 : Nat) = 1) := by decide
  obtain ⟨hc, ht'⟩ := text_cons_eq_self ht
  rw [quantumLoop]
  simp only [if_neg hA, if_neg padding_not_newline, if_neg hp, if_neg h01, if_true]
  have hs : skipNewlines (c :: t) (si + 1) = (c :: t, si + 1) := by
    rw [← ht, skipNewlines_text]
  rw [hs]
  simp only
  by_cases hc2 : c = StdPadding
  · have : ¬ c ≠ StdPadding := by simp [hc2]
    simp only [if_neg this, if_pos hc2]
    exact afterPadding_view_of_clean _ _ ht' _
  · have : c ≠ StdPadding := hc2
    simp only [if_pos this, if_neg hc2]
    simp [Quantum.view, ht]

theorem validGroups_first {a : Char} (h : inAlphabet a = false) (t : List Char) :
    validGroups (a :: t) = false := by
  rcases t with _ | ⟨b, _ | ⟨c, _ | ⟨d, t⟩⟩⟩ <;> simp [validGroups, h]

theorem validGroups_second {b : Char} (h : inAlphabet b = false) (a : Char) (t : List Char) :
    validGroups (a :: b :: t) = false := by
  rcases t with _ | ⟨c, _ | ⟨d, t⟩⟩ <;> simp [validGroups, h]

theorem validGroups_third {c : Char} (h : inAlphabet c = false) (hp : c ≠ StdPadding)
    (a b : Char) (t : List Char) : validGroups (a :: b :: c :: t) = false := by
  rcases t with _ | ⟨d, t⟩ <;> simp [validGroups, h, hp]

theorem ne_padding_of_inAlphabet {c : Char} (h : inAlphabet c = true) : c ≠ StdPadding := by
  intro hc
  rw [hc, StdPadding_not_inAlphabet] at h
  exact absurd h (by simp)

theorem quantumLoop_third {a b c : Char} (ha : inAlphabet a = true) (hb : inAlphabet b = true)
    (hc : inAlphabet c = true) {t : List Char} (ht : text t = t) (n si : Nat) :
    (quantumLoop n 3 [sextet a, sextet b, sextet c, 0] t si).readsGroupOf (a :: b :: c :: t) := by
  have sa := sextet_lt_of_inAlphabet ha
  have sb := sextet_lt_of_inAlphabet hb
  have sc := sextet_lt_of_inAlphabet hc
  have pc := ne_padding_of_inAlphabet hc
  cases t with
  | nil =>
    simp [Quantum.readsGroupOf, quantumLoop, Quantum.view, validGroups]
  | cons d t =>
    obtain ⟨hd, ht'⟩ := text_cons_eq_self ht
    by_cases hdA : inAlphabet d = true
    · have sd := sextet_lt_of_inAlphabet hdA
      have pd := ne_padding_of_inAlphabet hdA
      rw [quantumLoop_cons_inAlphabet hdA]
      simp [Quantum.readsGroupOf, Quantum.view, validGroups, groupBytes, ha, hb, hc, hdA, ht',
        pc, pd, quantumBytes_four sa sb sc sd]
    · have hdA' : inAlphabet d = false := by simpa using hdA
      by_cases hdp : d = StdPadding
      · subst hdp
        unfold Quantum.readsGroupOf
        rw [quantumLoop_padding_third _ _ ht']
        cases t with
        | nil =>
          simp [validGroups, groupBytes, ha, hb, hc, hdA', pc, quantumBytes_three sa sb sc]
        | cons e t =>
          simp [validGroups, ha, hb, hc, hdA']
      · unfold Quantum.readsGroupOf
        rw [quantumLoop_cons_other hdA' hd hdp]
        simp [validGroups, ha, hb, hc, hdA', hdp]

theorem quantumLoop_second {a b : Char} (ha : inAlphabet a = true) (hb : inAlphabet b = true)
    {t : List Char} (ht : text t = t) (n si : Nat) :
    (quantumLoop n 2 [sextet a, sextet b, 0, 0] t si).readsGroupOf (a :: b :: t) := by
  have sa := sextet_lt_of_inAlphabet ha
  have sb := sextet_lt_of_inAlphabet hb
  cases t with
  | nil =>
    simp [Quantum.readsGroupOf, quantumLoop, Quantum.view, validGroups]
  | cons c t =>
    obtain ⟨hc, ht'⟩ := text_cons_eq_self ht
    by_cases hcA : inAlphabet c = true
    · rw [quantumLoop_cons_inAlphabet hcA]
      simp only [show (2 : Nat) + 1 < 4 by decide, if_true, List.set_cons_succ, List.set_cons_zero]
      exact quantumLoop_third ha hb hcA ht' _ _
    · have hcA' : inAlphabet c = false := by simpa using hcA
      by_cases hcp : c = StdPadding
      · subst hcp
        unfold Quantum.readsGroupOf
        cases t with
        | nil =>
          rw [quantumLoop_padding_second_nil]
          simp [validGroups]
        | cons d t =>
          obtain ⟨hd, ht''⟩ := text_cons_eq_self ht'
          rw [quantumLoop_padding_second_cons _ _ ht']
          by_cases hdp : d = StdPadding
          · subst hdp
            simp only [if_true]
            cases t with
            | nil =>
              simp [validGroups, groupBytes, ha, hb, hcA', quantumBytes_two sa sb]
            | cons e t =>
              simp [validGroups, ha, hb, hcA']
          · simp only [if_neg hdp]
            simp [validGroups, ha, hb, hcA', hdp]
      · unfold Quantum.readsGroupOf
        rw [quantumLoop_cons_other hcA' hc hcp]
        simp [validGroups_third hcA' hcp]

theorem quantumLoop_first {a : Char} (ha : inAlphabet a = true) {t : List Char}
    (ht : text t = t) (n si : Nat) :
    (quantumLoop n 1 [sextet a, 0, 0, 0] t si).readsGroupOf (a :: t) := by
  cases t with
  | nil =>
    simp [Quantum.readsGroupOf, quantumLoop, Quantum.view, validGroups]
  | cons b t =>
    obtain ⟨hb, ht'⟩ := text_cons_eq_self ht
    by_cases hbA : inAlphabet b = true
    · rw [quantumLoop_cons_inAlphabet hbA]
      simp only [show (1 : Nat) + 1 < 4 by decide, if_true, List.set_cons_succ, List.set_cons_zero]
      exact quantumLoop_second ha hbA ht' _ _
    · have hbA' : inAlphabet b = false := by simpa using hbA
      unfold Quantum.readsGroupOf
      by_cases hbp : b = StdPadding
      · subst hbp
        rw [quantumLoop_padding_early (Or.inr rfl)]
        simp [validGroups_second hbA']
      · rw [quantumLoop_cons_other hbA' hb hbp]
        simp [validGroups_second hbA']

theorem decodeQuantum_readsGroupOf {t : List Char} (ht : text t = t) (n si : Nat) :
    (decodeQuantum n t si).readsGroupOf t := by
  unfold decodeQuantum
  cases t with
  | nil =>
    simp [Quantum.readsGroupOf, quantumLoop, Quantum.view, text_nil]
  | cons a t =>
    obtain ⟨ha, ht'⟩ := text_cons_eq_self ht
    by_cases haA : inAlphabet a = true
    · rw [quantumLoop_cons_inAlphabet haA]
      simp only [show (0 : Nat) + 1 < 4 by decide, if_true, List.set_cons_zero]
      exact quantumLoop_first haA ht' _ _
    · have haA' : inAlphabet a = false := by simpa using haA
      unfold Quantum.readsGroupOf
      by_cases hap : a = StdPadding
      · subst hap
        rw [quantumLoop_padding_early (Or.inl rfl)]
        simp [validGroups_first haA']
      · rw [quantumLoop_cons_other haA' ha hap]
        simp [validGroups_first haA']

theorem decodeLoop_nil (n fuel si : Nat) (dst : List Nat) :
    decodeLoop n fuel [] si dst = (dst, none) := by
  cases fuel <;> rfl

theorem decodeLoop_spec (fuel : Nat) :
    ∀ (l : List Char) (n si : Nat) (dst : List Nat), l.length ≤ fuel →
      (validGroups (text l) = true →
        decodeLoop n fuel l si dst = (dst ++ groupBytes (text l), none)) ∧
      (validGroups (text l) = false →
        ∃ out k, decodeLoop n fuel l si dst = (out, some (GoError.CorruptInputError k))) := by
  induction fuel with
  | zero =>
    intro l n si dst hl
    have hnil : l = [] := List.length_eq_zero.mp (Nat.le_zero.mp hl)
    subst hnil
    simp [decodeLoop_nil, text_nil, validGroups, groupBytes]
  | succ f ih =>
    intro l n si dst hl
    cases l with
    | nil => simp [decodeLoop_nil, text_nil, validGroups, groupBytes]
    | cons c rest =>
      have hv : (decodeQuantum n (c :: rest) si).view =
          (decodeQuantum n (text (c :: rest)) si).view := quantumLoop_view _ _ _ _ _ _ _
      have hg := decodeQuantum_readsGroupOf (text_text (c :: rest)) n si
      unfold Quantum.readsGroupOf at hg
      rw [← hv] at hg
      have hlen : (decodeQuantum n (c :: rest) si).rest.length ≤ f := by
        have := quantumLoop_rest_length (c :: rest) n 0 [0, 0, 0, 0] si
        simp only [List.length_cons, Nat.add_sub_cancel] at this hl
        exact le_trans this (by omega)
      rw [decodeLoop]
      cases he : (decodeQuantum n (c :: rest) si).err with
      | none =>
        have hno : (decodeQuantum n (c :: rest) si).view.2.1 = false := by
          simp [Quantum.view, he]
        obtain ⟨hvalid, hbytes⟩ := hg.1 hno
        simp only [Quantum.view] at hvalid hbytes
        have hrec := ih (decodeQuantum n (c :: rest) si).rest n
          (decodeQuantum n (c :: rest) si).nsi (dst ++ (decodeQuantum n (c :: rest) si).out) hlen
        simp only [Option.isSome_none, Bool.false_eq_true, if_false]
        rw [hvalid, hbytes]
        refine ⟨fun h => ?_, fun h => hrec.2 h⟩
        rw [hrec.1 h, List.append_assoc]
      | some e =>
        have hyes : (decodeQuantum n (c :: rest) si).view.2.1 = true := by
          simp [Quantum.view, he]
        have hinvalid := hg.2 hyes
        obtain ⟨k, hk⟩ := quantumLoop_err _ _ _ _ _ _ he
        simp only [Option.isSome_some, if_true]
        refine ⟨fun h => ?_, fun _ => ⟨_, k, by rw [hk]⟩⟩
        rw [hinvalid] at h
        exact absurd h (by simp)

theorem Decode_spec (src : List Char) :
    (validGroups (text src) = true → Decode src = (groupBytes (text src), none)) ∧
    (validGroups (text src) = false →
      ∃ out k, Decode src = (out, some (GoError.CorruptInputError k))) := by
  unfold Decode
  by_cases h0 : src.length = 0
  · have hnil : src = [] := List.length_eq_zero.mp h0
    subst hnil
    simp [text_nil, validGroups, groupBytes]
  · simp only [if_neg h0]
    have := decodeLoop_spec src.length src src.length 0 [] (le_refl _)
    simpa using this

/-- Refinement, valid side: on a valid standard base64 string the decoder of
`encoding/base64` returns the bytes that the text stands for, and no error. -/
theorem StdEncoding.DecodeString_of_valid (s : String) (h : StdEncoding.valid s = true) :
    StdEncoding.DecodeString s = (some (StdEncoding.decoded s), none) := by
  unfold StdEncoding.DecodeString StdEncoding.decoded
  rw [(Decode_spec s.toList).1 h]

/-- Refinement, invalid side: on a string that is not valid standard base64 the decoder
of `encoding/base64` returns the bytes decoded so far with a `CorruptInputError`. -/
theorem StdEncoding.DecodeString_of_not_valid (s : String) (h : StdEncoding.valid s = false) :
    ∃ out k, StdEncoding.DecodeString s = (some out, some (GoError.CorruptInputError k)) := by
  obtain ⟨out, k, hd⟩ := (Decode_spec s.toList).2 h
  exact ⟨out, k, by unfold StdEncoding.DecodeString; rw [hd]⟩

/-- The rounds of `decodeLoop` never run out: `Decode` ends either without an error or
with a `CorruptInputError`. -/
theorem Decode_error_cases (src : List Char) :
    (Decode src).2 = none ∨ ∃ k, (Decode src).2 = some (GoError.CorruptInputError k) := by
  cases hv : validGroups (text src) with
  | true =>
    left
    rw [(Decode_spec src).1 hv]
  | false =>
    right
    obtain ⟨out, k, hd⟩ := (Decode_spec src).2 hv
    exact ⟨k, by rw [hd]⟩

/-- The decoder on corrupt inputs, with the offset of the error it reports (`-1` for none):
the second component of each pair is what `DecodeString` returns on the first. -/
theorem StdEncoding.DecodeString_offsets :
    [("", -1), ("\n", -1), ("AAA=\n", -1), ("AAAA\n", -1), ("!!!!", 0), ("====", 0),
      ("x===", 1), ("=AAA", 0), ("A=AA", 1), ("AA=A", 2), ("AA==A", 4), ("AAA=AAAA", 4),
      ("AAAAA", 4), ("AAAAAA", 4), ("A=", 1), ("A==", 1), ("AA=", 3), ("AA==", -1),
      ("AAA=", -1), ("AAAA", -1), ("AAAAAA=", 7), ("YWJjZA=====", 8), ("A!\n", 1),
      ("A=\n", 1)].all
      (fun (p : String × Int) =>
        decide ((StdEncoding.DecodeString p.1).2 =
          if p.2 = -1 then none else some (GoError.CorruptInputError p.2))) = true := by
  decide

/-- The decoder on well-formed inputs: each string is decoded to the bytes next to it. -/
theorem StdEncoding.DecodeString_values :
    StdEncoding.DecodeString "FPucA9l+" = (some [0x14, 0xfb, 0x9c, 0x03, 0xd9, 0x7e], none) ∧
    StdEncoding.DecodeString "FPucA9k=" = (some [0x14, 0xfb, 0x9c, 0x03, 0xd9], none) ∧
    StdEncoding.DecodeString "FPucAw==" = (some [0x14, 0xfb, 0x9c, 0x03], none) ∧
    StdEncoding.DecodeString "Zm9vYmFy" = (some [102, 111, 111, 98, 97, 114], none) ∧
    StdEncoding.DecodeString "Zg==" = (some [102], none) := by
  decide

/-- The notions on known values: `aGVsbG8=` stands for the bytes of `hello`, also when a
line break cuts it; a text cut short or with a foreign character is not valid. -/
theorem StdEncoding.valid_decoded_examples :
    StdEncoding.valid "aGVsbG8=" = true ∧
    StdEncoding.decoded "aGVsbG8=" = [104, 101, 108, 108, 111] ∧
    StdEncoding.valid "aGVs\nbG8=" = true ∧
    StdEncoding.decoded "aGVs\nbG8=" = [104, 101, 108, 108, 111] ∧
    StdEncoding.valid "aGVsbG8" = false ∧
    StdEncoding.valid "aGVs-G8=" = false := by
  decide

end base64

/-! ## Strict validity, and the attempts of the client library -/

namespace base64

theorem not_newline_of_inAlphabet {c : Char} (h : inAlphabet c = true) : ¬ (c = LF ∨ c = CR) := by
  rintro (hc | hc)
  · rw [hc, LF_not_inAlphabet] at h
    exact absurd h (by simp)
  · rw [hc, CR_not_inAlphabet] at h
    exact absurd h (by simp)

theorem text_of_validGroups (n : Nat) :
    ∀ l : List Char, l.length ≤ n → validGroups l = true → text l = l := by
  induction n with
  | zero =>
    intro l hl _
    rw [List.length_eq_zero.mp (Nat.le_zero.mp hl)]
    rfl
  | succ n ih =>
    intro l hl hv
    rcases l with _ | ⟨a, _ | ⟨b, _ | ⟨c, _ | ⟨d, t⟩⟩⟩⟩
    · rfl
    · simp [validGroups] at hv
    · simp [validGroups] at hv
    · simp [validGroups] at hv
    · simp only [validGroups, Bool.and_eq_true] at hv
      obtain ⟨⟨ha, hb⟩, hrest⟩ := hv
      have na := not_newline_of_inAlphabet ha
      have nb := not_newline_of_inAlphabet hb
      have ht : t.length ≤ n := by
        simp only [List.length_cons] at hl
        omega
      by_cases hcd : inAlphabet c = true ∧ inAlphabet d = true
      · rw [if_pos hcd] at hrest
        have nc := not_newline_of_inAlphabet hcd.1
        have nd := not_newline_of_inAlphabet hcd.2
        rw [text_cons_other na, text_cons_other nb, text_cons_other nc, text_cons_other nd,
          ih t ht hrest]
      · rw [if_neg hcd] at hrest
        simp only [Bool.and_eq_true, Bool.or_eq_true, decide_eq_true_eq] at hrest
        obtain ⟨hnil, hpad⟩ := hrest
        subst hnil
        have nd : ¬ (d = LF ∨ d = CR) := by
          rcases hpad with ⟨_, hd⟩ | ⟨_, hd⟩ <;> rw [hd] <;> exact padding_not_newline
        have nc : ¬ (c = LF ∨ c = CR) := by
          rcases hpad with ⟨hc, _⟩ | ⟨hc, _⟩
          · rw [hc]
            exact padding_not_newline
          · exact not_newline_of_inAlphabet hc
        rw [text_cons_other na, text_cons_other nb, text_cons_other nc, text_cons_other nd,
          text_nil]

/-- A string that is valid standard base64 to the letter is valid once its line breaks are
left out, having none, and stands for the bytes of its groups. -/
theorem StdEncoding.valid_of_strictValid (s : String) (h : StdEncoding.strictValid s = true) :
    StdEncoding.valid s = true ∧ StdEncoding.decoded s = groupBytes s.toList := by
  unfold StdEncoding.strictValid at h
  unfold StdEncoding.valid StdEncoding.decoded
  rw [text_of_validGroups s.toList.length s.toList (le_refl _) h]
  exact ⟨h, rfl⟩

end base64

namespace vault

end vault

theorem String.length_lt_one_iff (s : String) : s.length < 1 ↔ s = "" := by
  constructor
  · intro h
    have h0 : s.data.length = 0 := by
      have : s.length = s.data.length := rfl
      omega
    exact String.ext (List.length_eq_zero.mp h0)
  · intro h
    subst h
    decide

theorem World.Getenv_length_lt_one_iff (w : World) (key : String) :
    (w.Getenv key).length < 1 ↔ missingOrEmpty (w.environ key) := by
  rw [String.length_lt_one_iff]
  unfold World.Getenv missingOrEmpty
  cases h : w.environ key with
  | none => simp
  | some v => simp

/-- C3: when `VAULT_ADDR` or `VAULT_TOKEN` is missing or empty, `NewVaultClientFromKeyID`
only reads the environment (no client is built and no call is made on one) and returns no
session with the error "failed to load vault address" when the address is missing or
empty, and with "Error loading vault token" when the address is set and not empty. -/
theorem NewVaultClientFromKeyID_missing_configuration (w : World) (id : String)
    (h : missingOrEmpty (w.environ "VAULT_ADDR") ∨ missingOrEmpty (w.environ "VAULT_TOKEN")) :
    (∀ c ∈ (NewVaultClientFromKeyID w id).calls, c.onClient = false) ∧
    (missingOrEmpty (w.environ "VAULT_ADDR") →
      NewVaultClientFromKeyID w id =
        ⟨[Call.Getenv "VAULT_ADDR"],
          Outcome.returned (none, some (GoError.errorString "failed to load vault address"))⟩) ∧
    (¬ missingOrEmpty (w.environ "VAULT_ADDR") →
      NewVaultClientFromKeyID w id =
        ⟨[Call.Getenv "VAULT_ADDR", Call.Getenv "VAULT_TOKEN"],
          Outcome.returned (none, some (GoError.errorString "Error loading vault token"))⟩) := by
  have ha := World.Getenv_length_lt_one_iff w "VAULT_ADDR"
  have ht := World.Getenv_length_lt_one_iff w "VAULT_TOKEN"
  by_cases hA : missingOrEmpty (w.environ "VAULT_ADDR")
  · have e : NewVaultClientFromKeyID w id =
        ⟨[Call.Getenv "VAULT_ADDR"],
          Outcome.returned (none, some (GoError.errorString "failed to load vault address"))⟩ := by
      unfold NewVaultClientFromKeyID
      simp only [ha.mpr hA, if_true, errors.New]
    refine ⟨?_, fun _ => e, fun hn => absurd hA hn⟩
    rw [e]; simp [Call.onClient]
  · have hT : missingOrEmpty (w.environ "VAULT_TOKEN") := h.resolve_left hA
    have e : NewVaultClientFromKeyID w id =
        ⟨[Call.Getenv "VAULT_ADDR", Call.Getenv "VAULT_TOKEN"],
          Outcome.returned (none, some (GoError.errorString "Error loading vault token"))⟩ := by
      unfold NewVaultClientFromKeyID
      simp only [mt ha.mp hA, ht.mpr hT, if_true, if_false, errors.New]
      rfl
    refine ⟨?_, fun hn => absurd hn hA, fun _ => e⟩
    rw [e]; simp [Call.onClient]

/-- Witness of C3: with an empty environment the address error is returned after one
environment read. -/
theorem NewVaultClientFromKeyID_missing_configuration_witness :
    missingOrEmpty ((Example.withEnviron (fun _ => none)).environ "VAULT_ADDR") ∧
    NewVaultClientFromKeyID (Example.withEnviron (fun _ => none)) "signing-key" =
      ⟨[Call.Getenv "VAULT_ADDR"],
        Outcome.returned (none, some (GoError.errorString "failed to load vault address"))⟩ :=
  ⟨Or.inl rfl,
    (NewVaultClientFromKeyID_missing_configuration (Example.withEnviron (fun _ => none))
      "signing-key" (Or.inl (Or.inl rfl))).2.1 (Or.inl rfl)⟩

/-- C9: when `VAULT_ADDR` and `VAULT_TOKEN` are both set and not empty,
`NewVaultClientFromKeyID` reads both, builds the client with that address and a request
timeout of 30 seconds, and sets the token on it; an error of the construction or of the
token setting is returned unchanged with no session, and otherwise the session holds the
client just built and the key identifier `id` as given. -/
theorem NewVaultClientFromKeyID_builds_session (w : World) (id addr token : String)
    (haddr : w.environ "VAULT_ADDR" = some addr) (haddr_ne : addr ≠ "")
    (htoken : w.environ "VAULT_TOKEN" = some token) (htoken_ne : token ≠ "") :
    (∀ client err,
      w.New [vault.ClientOption.WithAddress addr,
          vault.ClientOption.WithRequestTimeout 30000000000] = (client, some err) →
      NewVaultClientFromKeyID w id =
        ⟨[Call.Getenv "VAULT_ADDR", Call.Getenv "VAULT_TOKEN",
            Call.New [vault.ClientOption.WithAddress addr,
              vault.ClientOption.WithRequestTimeout 30000000000]],
          Outcome.returned (none, some err)⟩) ∧
    (∀ client,
      w.New [vault.ClientOption.WithAddress addr,
          vault.ClientOption.WithRequestTimeout 30000000000] = (client, none) →
      (∀ err, w.SetToken client token = some err →
        NewVaultClientFromKeyID w id =
          ⟨[Call.Getenv "VAULT_ADDR", Call.Getenv "VAULT_TOKEN",
              Call.New [vault.ClientOption.WithAddress addr,
                vault.ClientOption.WithRequestTimeout 30000000000],
              Call.SetToken client token],
            Outcome.returned (none, some err)⟩) ∧
      (w.SetToken client token = none →
        NewVaultClientFromKeyID w id =
          ⟨[Call.Getenv "VAULT_ADDR", Call.Getenv "VAULT_TOKEN",
              Call.New [vault.ClientOption.WithAddress addr,
                vault.ClientOption.WithRequestTimeout 30000000000],
              Call.SetToken client token],
            Outcome.returned (some { vaultClient := client, keyID := id }, none)⟩)) := by
  have ha : ¬ (w.Getenv "VAULT_ADDR").length < 1 := by
    rw [World.Getenv_length_lt_one_iff, haddr]
    simp [missingOrEmpty, haddr_ne]
  have ht : ¬ (w.Getenv "VAULT_TOKEN").length < 1 := by
    rw [World.Getenv_length_lt_one_iff, htoken]
    simp [missingOrEmpty, htoken_ne]
  have ga : w.Getenv "VAULT_ADDR" = addr := by simp [World.Getenv, haddr]
  have gt : w.Getenv "VAULT_TOKEN" = token := by simp [World.Getenv, htoken]
  have hsec : 30 * time.Second = 30000000000 := by decide
  rw [ga] at ha
  rw [gt] at ht
  refine ⟨?_, ?_⟩
  · intro client err hnew
    unfold NewVaultClientFromKeyID
    simp only [ha, ht, if_false, ga, gt, hsec, hnew]
    rfl
  · intro client hnew
    refine ⟨?_, ?_⟩
    · intro err hset
      unfold NewVaultClientFromKeyID
      simp only [ha, ht, if_false, ga, gt, hsec, hnew, hset]
      rfl
    · intro hset
      unfold NewVaultClientFromKeyID
      simp only [ha, ht, if_false, ga, gt, hsec, hnew, hset]
      rfl

/-- Witness of C9: in the world where every call succeeds the session for `signing-key`
is returned. -/
theorem NewVaultClientFromKeyID_builds_session_witness :
    NewVaultClientFromKeyID Example.world "signing-key" =
      ⟨[Call.Getenv "VAULT_ADDR", Call.Getenv "VAULT_TOKEN",
          Call.New [vault.ClientOption.WithAddress "https://vault.example:8200",
            vault.ClientOption.WithRequestTimeout 30000000000],
          Call.SetToken Example.client "s.token"],
        Outcome.returned (some { vaultClient := Example.client, keyID := "signing-key" }, none)⟩ :=
  ((NewVaultClientFromKeyID_builds_session Example.world "signing-key"
    "https://vault.example:8200" "s.token" rfl (by decide) rfl (by decide)).2
      Example.client rfl).2 rfl

/-! ## Certificate chain retrieval -/

/-- C4, as amended: when the secret read succeeds with a response that is not nil, and the
field `certificate` of the payload is absent or does not hold a string, `GetCertificateChain`
makes no call after the read (the certificate parser is not invoked) and returns no
certificates with the error "failed to parse certificate from KV secrets engine". -/
theorem GetCertificateChain_certificate_not_string (w : World) (vw : VaultClientWrapper)
    (ctx : Context) (secret : Response schema.KvV2ReadResponse)
    (hcall : w.KvV2Read ctx vw.vaultClient vw.keyID = (some secret, none))
    (hfield : ∀ s, secret.Data.Data "certificate" ≠ some (GoValue.string s)) :
    vw.GetCertificateChain w ctx =
      ⟨[Call.KvV2Read ctx vw.vaultClient vw.keyID], vw,
        Outcome.returned
          (none, some (GoError.errorString "failed to parse certificate from KV secrets engine"))⟩ := by
  unfold VaultClientWrapper.GetCertificateChain
  simp only [hcall]
  have hassert : (secret.Data.Data.index "certificate").assertString = ("", false) := by
    unfold GoMap.index
    cases hv : secret.Data.Data "certificate" with
    | none => rfl
    | some v =>
      cases v with
      | string s => exact absurd hv (hfield s)
      | _ => rfl
  simp only [hassert, errors.New]

/-- Witness of C4, as amended: a secret without a `certificate` field. -/
theorem GetCertificateChain_certificate_not_string_witness :
    Example.session.GetCertificateChain (Example.withSecretData Example.emptyMap) Example.ctx =
      ⟨[Call.KvV2Read Example.ctx Example.client "signing-key"], Example.session,
        Outcome.returned
          (none, some (GoError.errorString "failed to parse certificate from KV secrets engine"))⟩ :=
  GetCertificateChain_certificate_not_string (Example.withSecretData Example.emptyMap)
    Example.session Example.ctx ⟨⟨Example.emptyMap, Example.emptyMap⟩⟩ rfl
    (fun _ h => Option.noConfusion h)

/-- Counterexample to C4 as stated, on two successful reads.  For a secret whose
`certificate` field is a number, the error returned is not the one with the message
"failed to parse certificate from secrets engine".  For a read that returns a nil response
with a nil error, in which no `certificate` field is present, no error is returned at all:
the run panics on the nil response (line 60). -/
theorem GetCertificateChain_certificate_message_counterexample :
    ((∀ s, Example.numberRecord "certificate" "1" "certificate" ≠ some (GoValue.string s)) ∧
      (Example.session.GetCertificateChain
          (Example.withSecretData (Example.numberRecord "certificate" "1")) Example.ctx).outcome ≠
        Outcome.returned
          (none, some (GoError.errorString "failed to parse certificate from secrets engine"))) ∧
    (Example.withNilResponse.KvV2Read Example.ctx Example.client "signing-key" = (none, none) ∧
      Example.session.GetCertificateChain Example.withNilResponse Example.ctx =
        ⟨[Call.KvV2Read Example.ctx Example.client "signing-key"], Example.session,
          Outcome.panicked Panic.nilDereference⟩) := by
  refine ⟨⟨?_, by decide⟩, rfl, rfl⟩
  intro s h
  simp [Example.numberRecord] at h

/-- The conversion `[]byte(s)` of the embedding gives the bytes of the UTF-8 encoding of `s`. -/
theorem bytesOfString_eq_toUTF8 (s : String) :
    bytesOfString s = s.toUTF8.data.toList.map UInt8.toNat :=
  rfl

/-- C8: when the secret read succeeds and the field `certificate` holds the string `s`,
`GetCertificateChain` reads the secret at the path `vw.keyID`, calls the certificate parser
once, on the raw bytes of `s`, which are the bytes of its UTF-8 encoding `s.toUTF8`, and
returns the results of the parser, certificates and error, as they are. -/
theorem GetCertificateChain_returns_parser_results (w : World) (vw : VaultClientWrapper)
    (ctx : Context) (secret : Response schema.KvV2ReadResponse) (s : String)
    (hcall : w.KvV2Read ctx vw.vaultClient vw.keyID = (some secret, none))
    (hfield : secret.Data.Data "certificate" = some (GoValue.string s)) :
    vw.GetCertificateChain w ctx =
      ⟨[Call.KvV2Read ctx vw.vaultClient vw.keyID,
          Call.ParseCertificates (s.toUTF8.data.toList.map UInt8.toNat)], vw,
        Outcome.returned (w.ParseCertificates (s.toUTF8.data.toList.map UInt8.toNat))⟩ := by
  unfold VaultClientWrapper.GetCertificateChain
  simp only [hcall]
  have hassert : (secret.Data.Data.index "certificate").assertString = (s, true) := by
    unfold GoMap.index
    rw [hfield]
    rfl
  simp only [hassert]
  show (⟨[Call.KvV2Read ctx vw.vaultClient vw.keyID] ++ [Call.ParseCertificates (bytesOfString s)],
      vw, Outcome.returned (w.ParseCertificates (bytesOfString s))⟩ :
        MethodExec (Slice Certificate × Option GoError)) = _
  have hbytes : bytesOfString s = s.toUTF8.data.toList.map UInt8.toNat := rfl
  rw [hbytes]
  rfl

/-- Witness of C8: the secret holds the string `PEMé€𝄞`, whose characters take one, two,
three and four bytes in UTF-8; the parser receives these twelve bytes. -/
theorem GetCertificateChain_returns_parser_results_witness :
    Example.session.GetCertificateChain
        (Example.withSecretData (Example.record "certificate" "PEMé€𝄞")) Example.ctx =
      ⟨[Call.KvV2Read Example.ctx Example.client "signing-key",
          Call.ParseCertificates [80, 69, 77, 195, 169, 226, 130, 172, 240, 157, 132, 158]],
        Example.session,
        Outcome.returned
          (some [⟨[80, 69, 77, 195, 169, 226, 130, 172, 240, 157, 132, 158]⟩], none)⟩ :=
  GetCertificateChain_returns_parser_results
    (Example.withSecretData (Example.record "certificate" "PEMé€𝄞")) Example.session Example.ctx
    ⟨⟨Example.record "certificate" "PEMé€𝄞", Example.emptyMap⟩⟩ "PEMé€𝄞" rfl rfl

/-! ## Errors of the remote call -/

/-- C7: in every run of `SignWithTransit` the requests to the remote service are one transit
sign, for the key identifier of the session, whose request carries the encoded digest as
`Input`, the algorithm name as `SignatureAlgorithm`, `Prehashed = true`,
`MarshalingAlgorithm = "asn1"`, `SaltLength = "hash"` and the zero value in every other
field; the run leaves the session as it was. -/
theorem SignWithTransit_single_request (w : World) (vw : VaultClientWrapper) (ctx : Context)
    (encodedData signAlgorithm : String) :
    ∃ request : schema.TransitSignRequest,
      (vw.SignWithTransit w ctx encodedData signAlgorithm).calls.filter Call.isRemote =
        [Call.TransitSign ctx vw.vaultClient vw.keyID request] ∧
      (vw.SignWithTransit w ctx encodedData signAlgorithm).calls.head? =
        some (Call.TransitSign ctx vw.vaultClient vw.keyID request) ∧
      request.Input = encodedData ∧
      request.SignatureAlgorithm = signAlgorithm ∧
      request.Prehashed = true ∧
      request.MarshalingAlgorithm = "asn1" ∧
      request.SaltLength = "hash" ∧
      request.Algorithm = "" ∧
      request.BatchInput = none ∧
      request.Context = "" ∧
      request.HashAlgorithm = "" ∧
      request.KeyVersion = 0 ∧
      (vw.SignWithTransit w ctx encodedData signAlgorithm).self = vw := by
  refine ⟨{ Input := encodedData, MarshalingAlgorithm := "asn1", Prehashed := true,
            SaltLength := "hash", SignatureAlgorithm := signAlgorithm },
    ?_, ?_, rfl, rfl, rfl, rfl, rfl, rfl, rfl, rfl, rfl, rfl, ?_⟩
  all_goals
    unfold VaultClientWrapper.SignWithTransit
    simp only
    split
    · simp [Call.isRemote]
    · simp [Call.isRemote]
    · split
      · simp [Call.isRemote]
      · split
        · simp [Call.isRemote]
        · split <;> simp [Call.isRemote]

/-- The type assertion on a response that is not nil: when the transit sign succeeds with
such a response and its field `signature` is absent or does not hold a string,
`SignWithTransit` makes no call after the transit sign (nothing is split or decoded) and
returns the nil slice with the error "failed to parse signature from TransitSign response". -/
theorem SignWithTransit_signature_not_string (w : World) (vw : VaultClientWrapper)
    (ctx : Context) (encodedData signAlgorithm : String) (resp : Response GoMap)
    (hcall : w.TransitSign ctx vw.vaultClient vw.keyID
      (VaultClientWrapper.signRequest encodedData signAlgorithm) = (some resp, none))
    (hfield : ∀ s, resp.Data "signature" ≠ some (GoValue.string s)) :
    vw.SignWithTransit w ctx encodedData signAlgorithm =
      ⟨[Call.TransitSign ctx vw.vaultClient vw.keyID
          (VaultClientWrapper.signRequest encodedData signAlgorithm)], vw,
        Outcome.returned
          (none, some (GoError.errorString "failed to parse signature from TransitSign response"))⟩ := by
  unfold VaultClientWrapper.SignWithTransit
  unfold VaultClientWrapper.signRequest at hcall ⊢
  simp only [hcall]
  have hassert : (resp.Data.index "signature").assertString = ("", false) := by
    unfold GoMap.index
    cases hv : resp.Data "signature" with
    | none => rfl
    | some v =>
      cases v with
      | string s => exact absurd hv (hfield s)
      | _ => rfl
  simp only [hassert, errors.New]

/-- The type assertion on a response whose `signature` field is a number. -/
theorem SignWithTransit_signature_not_string_witness :
    Example.session.SignWithTransit (Example.withSignData (Example.numberRecord "signature" "7"))
        Example.ctx "3q2+7w==" "rsa-pss" =
      ⟨[Call.TransitSign Example.ctx Example.client "signing-key"
          (VaultClientWrapper.signRequest "3q2+7w==" "rsa-pss")], Example.session,
        Outcome.returned
          (none, some (GoError.errorString "failed to parse signature from TransitSign response"))⟩ :=
  SignWithTransit_signature_not_string (Example.withSignData (Example.numberRecord "signature" "7"))
    Example.session Example.ctx "3q2+7w==" "rsa-pss" ⟨Example.numberRecord "signature" "7"⟩ rfl
    (by intro s h; simp [Example.numberRecord] at h)

/-- C6, the code at the failing input: when the transit sign returns a nil response with a
nil error, as the client library does on a success without a body, no `signature` field is
present and `SignWithTransit` does not return the error "failed to parse signature from
TransitSign response": it panics on the nil response (line 81), after the one call. -/
theorem SignWithTransit_nil_response_panics :
    Example.withNilResponse.TransitSign Example.ctx Example.client "signing-key"
        (VaultClientWrapper.signRequest "3q2+7w==" "rsa-pss") = (none, none) ∧
    Example.session.SignWithTransit Example.withNilResponse Example.ctx "3q2+7w==" "rsa-pss" =
      ⟨[Call.TransitSign Example.ctx Example.client "signing-key"
          (VaultClientWrapper.signRequest "3q2+7w==" "rsa-pss")], Example.session,
        Outcome.panicked Panic.nilDereference⟩ :=
  ⟨rfl, rfl⟩

/-- The unguarded index: when the transit sign succeeds and the field `signature` holds a
string with fewer than three colon-delimited segments, `SignWithTransit` panics on the
index expression `items[2]`. -/
theorem SignWithTransit_fewer_than_three_segments (w : World) (vw : VaultClientWrapper)
    (ctx : Context) (encodedData signAlgorithm : String) (resp : Response GoMap)
    (signature : String)
    (hcall : w.TransitSign ctx vw.vaultClient vw.keyID
      (VaultClientWrapper.signRequest encodedData signAlgorithm) = (some resp, none))
    (hfield : resp.Data "signature" = some (GoValue.string signature))
    (hlen : (colonSegments signature).length < 3) :
    vw.SignWithTransit w ctx encodedData signAlgorithm =
      ⟨[Call.TransitSign ctx vw.vaultClient vw.keyID
          (VaultClientWrapper.signRequest encodedData signAlgorithm),
        Call.Split signature ":"], vw,
        Outcome.panicked (Panic.indexOutOfRange 2 (colonSegments signature).length)⟩ := by
  have hsplit : strings.Split signature ":" = colonSegments signature :=
    strings.Split_colon signature
  have hassert : (resp.Data.index "signature").assertString = (signature, true) := by
    unfold GoMap.index
    rw [hfield]
    rfl
  have hget : (colonSegments signature).get? 2 = none :=
    List.get?_eq_none.mpr (by omega)
  unfold VaultClientWrapper.SignWithTransit
  unfold VaultClientWrapper.signRequest at hcall ⊢
  simp only [hcall, hassert, hsplit, hget]
  rfl

/-- C2, the code at the failing inputs: for the signature strings `""`, `"AAAA"` and
`"vault:v1"`, which split into one, one and two segments, `SignWithTransit` does not return
an error value: it panics on the index expression `items[2]`. -/
theorem SignWithTransit_short_signature_panics :
    (Example.session.SignWithTransit (Example.withSignData (Example.record "signature" ""))
        Example.ctx "3q2+7w==" "rsa-pss").outcome
      = Outcome.panicked (Panic.indexOutOfRange 2 1) ∧
    (Example.session.SignWithTransit (Example.withSignData (Example.record "signature" "AAAA"))
        Example.ctx "3q2+7w==" "rsa-pss").outcome
      = Outcome.panicked (Panic.indexOutOfRange 2 1) ∧
    (Example.session.SignWithTransit (Example.withSignData (Example.record "signature" "vault:v1"))
        Example.ctx "3q2+7w==" "rsa-pss").outcome
      = Outcome.panicked (Panic.indexOutOfRange 2 2) := by
  refine ⟨?_, ?_, ?_⟩ <;> rfl

theorem SignWithTransit_of_string (w : World) (vw : VaultClientWrapper) (ctx : Context)
    (encodedData signAlgorithm : String) (resp : Response GoMap)
    (signature first second third : String) (more : List String)
    (hcall : w.TransitSign ctx vw.vaultClient vw.keyID
      (VaultClientWrapper.signRequest encodedData signAlgorithm) = (some resp, none))
    (hfield : resp.Data "signature" = some (GoValue.string signature))
    (hsegments : colonSegments signature = first :: second :: third :: more) :
    vw.SignWithTransit w ctx encodedData signAlgorithm =
      ⟨[Call.TransitSign ctx vw.vaultClient vw.keyID
          (VaultClientWrapper.signRequest encodedData signAlgorithm),
        Call.Split signature ":", Call.DecodeString third], vw,
        match base64.StdEncoding.DecodeString third with
        | (_, some err) => Outcome.returned (none, some err)
        | (sigBytes, none) => Outcome.returned (sigBytes, none)⟩ := by
  have hsplit : strings.Split signature ":" = first :: second :: third :: more := by
    rw [strings.Split_colon]
    exact hsegments
  have hassert : (resp.Data.index "signature").assertString = (signature, true) := by
    unfold GoMap.index
    rw [hfield]
    rfl
  unfold VaultClientWrapper.SignWithTransit
  unfold VaultClientWrapper.signRequest at hcall ⊢
  simp only [hcall, hassert, hsplit, List.get?_cons_succ, List.get?_cons_zero]
  rcases base64.StdEncoding.DecodeString third with ⟨sigBytes, _ | err⟩ <;> rfl

/-- C1: when the transit sign succeeds and the field `signature` of the response holds a
string with at least three colon-delimited segments, the third of which is valid standard
base64 (to the letter or, more widely, once its line breaks are left out),
`SignWithTransit` returns the bytes that this third segment stands for, and no error,
whatever the encoded digest, the algorithm name, the first two segments and the segments
after the third. -/
theorem SignWithTransit_decodes_third_segment (w : World) (vw : VaultClientWrapper)
    (ctx : Context) (encodedData signAlgorithm : String) (resp : Response GoMap)
    (signature first second third : String) (more : List String)
    (hcall : w.TransitSign ctx vw.vaultClient vw.keyID
      (VaultClientWrapper.signRequest encodedData signAlgorithm) = (some resp, none))
    (hfield : resp.Data "signature" = some (GoValue.string signature))
    (hsegments : colonSegments signature = first :: second :: third :: more)
    (hvalid : base64.StdEncoding.valid third = true) :
    vw.SignWithTransit w ctx encodedData signAlgorithm =
      ⟨[Call.TransitSign ctx vw.vaultClient vw.keyID
          (VaultClientWrapper.signRequest encodedData signAlgorithm),
        Call.Split signature ":", Call.DecodeString third], vw,
        Outcome.returned (some (base64.StdEncoding.decoded third), none)⟩ := by
  rw [SignWithTransit_of_string w vw ctx encodedData signAlgorithm resp signature first second
    third more hcall hfield hsegments, base64.StdEncoding.DecodeString_of_valid third hvalid]

/-- Witness of C1: for the signature `vault:v1:AAAA` the result is the three zero bytes
that `AAAA` stands for. -/
theorem SignWithTransit_decodes_third_segment_witness :
    Example.session.SignWithTransit Example.world Example.ctx "3q2+7w==" "rsa-pss" =
      ⟨[Call.TransitSign Example.ctx Example.client "signing-key"
          (VaultClientWrapper.signRequest "3q2+7w==" "rsa-pss"),
        Call.Split "vault:v1:AAAA" ":", Call.DecodeString "AAAA"], Example.session,
        Outcome.returned (some [0, 0, 0], none)⟩ :=
  SignWithTransit_decodes_third_segment Example.world Example.session Example.ctx "3q2+7w=="
    "rsa-pss" ⟨Example.record "signature" "vault:v1:AAAA"⟩ "vault:v1:AAAA" "vault" "v1" "AAAA" []
    rfl rfl (by decide) (by decide)

/-- C10, as amended: when the transit sign succeeds and the field `signature` of the
response holds a string with at least three colon-delimited segments, then if the third
segment, once its line breaks (CR and LF) are left out, is not valid standard base64,
`SignWithTransit` returns the nil slice, whatever bytes the decoder had decoded, together
with the error of the decoder as it is; and `SignWithTransit` returns with a nil error if and
only if the third segment, once its line breaks are left out, is valid standard base64. -/
theorem SignWithTransit_invalid_base64 (w : World) (vw : VaultClientWrapper)
    (ctx : Context) (encodedData signAlgorithm : String) (resp : Response GoMap)
    (signature first second third : String) (more : List String)
    (hcall : w.TransitSign ctx vw.vaultClient vw.keyID
      (VaultClientWrapper.signRequest encodedData signAlgorithm) = (some resp, none))
    (hfield : resp.Data "signature" = some (GoValue.string signature))
    (hsegments : colonSegments signature = first :: second :: third :: more) :
    (base64.StdEncoding.valid third = false →
      ∃ out k,
        base64.StdEncoding.DecodeString third = (some out, some (GoError.CorruptInputError k)) ∧
        vw.SignWithTransit w ctx encodedData signAlgorithm =
          ⟨[Call.TransitSign ctx vw.vaultClient vw.keyID
              (VaultClientWrapper.signRequest encodedData signAlgorithm),
            Call.Split signature ":", Call.DecodeString third], vw,
            Outcome.returned (none, some (GoError.CorruptInputError k))⟩) ∧
    ((∃ sigBytes, (vw.SignWithTransit w ctx encodedData signAlgorithm).outcome =
        Outcome.returned (sigBytes, none)) ↔ base64.StdEncoding.valid third = true) := by
  have hrun := SignWithTransit_of_string w vw ctx encodedData signAlgorithm resp signature first
    second third more hcall hfield hsegments
  have hinvalid : base64.StdEncoding.valid third = false →
      ∃ out k,
        base64.StdEncoding.DecodeString third = (some out, some (GoError.CorruptInputError k)) ∧
        vw.SignWithTransit w ctx encodedData signAlgorithm =
          ⟨[Call.TransitSign ctx vw.vaultClient vw.keyID
              (VaultClientWrapper.signRequest encodedData signAlgorithm),
            Call.Split signature ":", Call.DecodeString third], vw,
            Outcome.returned (none, some (GoError.CorruptInputError k))⟩ := by
    intro hv
    obtain ⟨out, k, hd⟩ := base64.StdEncoding.DecodeString_of_not_valid third hv
    refine ⟨out, k, hd, ?_⟩
    rw [hrun, hd]
  refine ⟨hinvalid, ?_, ?_⟩
  · rintro ⟨sigBytes, hok⟩
    cases hv : base64.StdEncoding.valid third with
    | true => rfl
    | false =>
      obtain ⟨out, k, _, hfail⟩ := hinvalid hv
      rw [hfail] at hok
      simp at hok
  · intro hv
    refine ⟨some (base64.StdEncoding.decoded third), ?_⟩
    rw [hrun, base64.StdEncoding.DecodeString_of_valid third hv]

/-- Witness of C10, as amended: for the signature `vault:v1:AAAA====` the decoder has decoded three
bytes when it meets the padding at offset 4; `SignWithTransit` returns the nil slice with
that error. -/
theorem SignWithTransit_invalid_base64_witness :
    base64.StdEncoding.DecodeString "AAAA====" =
      (some [0, 0, 0], some (GoError.CorruptInputError 4)) ∧
    Example.session.SignWithTransit
        (Example.withSignData (Example.record "signature" "vault:v1:AAAA===="))
        Example.ctx "3q2+7w==" "rsa-pss" =
      ⟨[Call.TransitSign Example.ctx Example.client "signing-key"
          (VaultClientWrapper.signRequest "3q2+7w==" "rsa-pss"),
        Call.Split "vault:v1:AAAA====" ":", Call.DecodeString "AAAA===="], Example.session,
        Outcome.returned (none, some (GoError.CorruptInputError 4))⟩ := by
  obtain ⟨out, k, hd, hrun⟩ :=
    (SignWithTransit_invalid_base64
      (Example.withSignData (Example.record "signature" "vault:v1:AAAA===="))
      Example.session Example.ctx "3q2+7w==" "rsa-pss"
      ⟨Example.record "signature" "vault:v1:AAAA===="⟩ "vault:v1:AAAA====" "vault" "v1"
      "AAAA====" [] rfl rfl (by decide)).1 (by decide)
  have he : base64.StdEncoding.DecodeString "AAAA====" =
      (some [0, 0, 0], some (GoError.CorruptInputError 4)) := by decide
  have hk : k = 4 := by
    rw [he] at hd
    injection hd with _ h2
    injection h2 with h3
    injection h3 with h4
    exact h4.symm
  subst hk
  exact ⟨he, hrun⟩

/-- Counterexample to C10 as stated: the signature `vault:v1:AAAA` followed by a line feed
has three colon-delimited segments, the third of which holds a character outside the
alphabet and so is not valid standard base64 to the letter; yet `SignWithTransit` does not
fail: it returns the three bytes of `AAAA` with a nil error, the decoder skipping the line
feed. -/
theorem SignWithTransit_line_break_counterexample :
    colonSegments "vault:v1:AAAA\n" = ["vault", "v1", "AAAA\n"] ∧
    base64.StdEncoding.strictValid "AAAA\n" = false ∧
    Example.session.SignWithTransit
        (Example.withSignData (Example.record "signature" "vault:v1:AAAA\n"))
        Example.ctx "3q2+7w==" "rsa-pss" =
      ⟨[Call.TransitSign Example.ctx Example.client "signing-key"
          (VaultClientWrapper.signRequest "3q2+7w==" "rsa-pss"),
        Call.Split "vault:v1:AAAA\n" ":", Call.DecodeString "AAAA\n"], Example.session,
        Outcome.returned (some [0, 0, 0], none)⟩ := by
  refine ⟨by decide, by decide, rfl⟩

end keyvault
